import Mathlib

/-!
Sparse row storage and traversal of `xlsx/v3/row.go`.

A shallow embedding of the `Row` type of `src/xlsx/v3/row.go`: the backing
slice `r.cells` with its length and capacity, the counter `r.cellCount`,
`AddCell`, `growCellsSlice`, `GetCell` and `ForEachCell`.

Conventions of the embedding.

* A Go slice of `*Cell` is a list of optional cells (the visible `len` elements,
  `none` being the nil pointer) together with its capacity `cellsCap`.
* A Go run-time panic (index out of range, nil dereference) is the result `none`
  of `GetCell` and the outcome `Exit.panicked` of a traversal, which keeps the Row
  and the visitor's log as they are when the panic occurs.
* Go `int` values are mathematical integers; memory is unbounded.
* A cell is stored by value in the one slot that holds its pointer.  The
  operations below never place one pointer in two slots.
* A visitor is a function of its own state; it does not modify the Row.
-/

namespace Xlsx

/-- Modelled from the spec: the Cell type (declared in the package's cell source,
which is not part of the sources at hand).  A Cell has a column index and a raw
value; its non-owning back-reference to the Row is not represented. -/
structure Cell where
  num : Int
  Value : String
deriving DecidableEq

/-- Modelled from the spec: newCell (defined next to the Cell type, not part of the
sources at hand) creates the Cell of column index `num` with the default, empty
value. -/
def newCell (num : Int) : Cell :=
  { num := num, Value := "" }

/-- Modelled from the spec: the Sheet type (not part of the sources at hand), of
which `row.go` reads `MaxCol` and reads and writes `SheetFormat.OutlineLevelRow`. -/
structure Sheet where
  MaxCol : Int
  OutlineLevelRow : Nat
deriving DecidableEq

/-- The `Row` struct.  `cells` and `cellsCap` are the elements and the capacity of
the slice `r.cells`.  The pointer `r.Sheet` is passed separately to the one
operation that follows it; `height` (a float64) is not represented. -/
structure Row where
  Hidden : Bool
  outlineLevel : Nat
  isCustom : Bool
  num : Int
  cellCount : Int
  cells : List (Option Cell)
  cellsCap : Nat
deriving DecidableEq

/-- The zero-valued Row: no cells, a nil slice (length 0, capacity 0). -/
def emptyRow : Row :=
  { Hidden := false, outlineLevel := 0, isCustom := false, num := 0,
    cellCount := 0, cells := [], cellsCap := 0 }

/-- The slice invariant of Go: length at most capacity. -/
def Row.WF (r : Row) : Prop :=
  r.cells.length ≤ r.cellsCap

instance (r : Row) : Decidable r.WF :=
  inferInstanceAs (Decidable (r.cells.length ≤ r.cellsCap))

/-- The method `Row.GetCellCount`. -/
def GetCellCount (r : Row) : Int :=
  r.cellCount

/-- Number of non-absent slots of the backing sequence. -/
def materialized (r : Row) : Nat :=
  (r.cells.filter Option.isSome).length

/-- Capacity the Go runtime gives the slice when `append` must reallocate a slice
of capacity `oldCap` for one more pointer: one slot for the nil slice, twice the
old capacity below 256 slots.  Only evaluated on such small slices here. -/
def goGrow (oldCap : Nat) : Nat :=
  if oldCap = 0 then 1 else 2 * oldCap

/-- The method `Row.AddCell`.  The builtin `append` keeps the capacity while there is room and
otherwise reallocates to the capacity `grow` chooses. -/
def AddCell (grow : Nat → Nat) (r : Row) : Cell × Row :=
  let cell := newCell r.cellCount
  (cell,
    { r with
      cellCount := r.cellCount + 1
      cells := r.cells ++ [some cell]
      cellsCap := if r.cells.length < r.cellsCap then r.cellsCap else grow r.cellsCap })

/-- The pair `make([]*Cell, n, n)` and `copy(newSlice, src)`: `n` slots, the first
`min n (len src)` taken from `src`, the others nil. -/
def makeCopy (n : Nat) (src : List (Option Cell)) : List (Option Cell) :=
  src.take n ++ List.replicate (n - src.length) none

/-- The method `Row.growCellsSlice`. -/
def growCellsSlice (r : Row) (newSize : Int) : Row :=
  let capacity : Int := r.cellsCap
  if newSize ≥ capacity then
    let newCap : Int := if newSize > 2 * capacity then newSize else 2 * capacity
    { r with cells := makeCopy newCap.toNat r.cells, cellsCap := newCap.toNat }
  else
    r

/-- The method `Row.GetCell`.  The result is `none` when an index expression panics. -/
def GetCell (r : Row) (colIdx : Int) : Option (Cell × Row) :=
  if colIdx ≥ r.cells.length then
    let cell := newCell colIdx
    let r1 := growCellsSlice r (colIdx + 1)
    if colIdx.toNat < r1.cells.length then
      some (cell, { r1 with cells := r1.cells.set colIdx.toNat (some cell) })
    else
      none
  else if colIdx < 0 then
    none
  else
    match r.cells[colIdx.toNat]? with
    | none => none
    | some (some cell) => some (cell, r)
    | some none =>
      let cell := newCell colIdx
      some (cell, { r with cells := r.cells.set colIdx.toNat (some cell) })

/-- The struct `cellVisitorFlags`. -/
structure cellVisitorFlags where
  skipEmptyCells : Bool
deriving DecidableEq

/-- The type `CellVisitorOption`. -/
abbrev CellVisitorOption := cellVisitorFlags → cellVisitorFlags

/-- The option `SkipEmptyCells`. -/
def SkipEmptyCells : CellVisitorOption :=
  fun flags => { flags with skipEmptyCells := true }

/-- One invocation of the visitor: the loop index, the Cell passed and the error
returned (`none` for nil). -/
structure Call (ε : Type) where
  ci : Nat
  cell : Cell
  ret : Option ε
deriving DecidableEq

/-- How a traversal ends: it returns nil, it returns an error, or it panics. -/
inductive Exit (ε : Type) where
  | ok : Exit ε
  | error (e : ε) : Exit ε
  | panicked : Exit ε
deriving DecidableEq

/-- What a traversal leaves behind: the Row, the visitor's state, the log of the
visitor's invocations in order, and the way it ended. -/
structure Visit (σ ε : Type) where
  row : Row
  state : σ
  calls : List (Call ε)
  exit : Exit ε
deriving DecidableEq

/-- A step that returns nil without invoking the visitor. -/
def Visit.skip {σ ε : Type} (r : Row) (s : σ) : Visit σ ε :=
  { row := r, state := s, calls := [], exit := Exit.ok }

/-- A step that panics without invoking the visitor. -/
def Visit.abort {σ ε : Type} (r : Row) (s : σ) : Visit σ ε :=
  { row := r, state := s, calls := [], exit := Exit.panicked }

/-- The statement `err := cvf(c)`. -/
def invoke {σ ε : Type} (cvf : σ → Cell → σ × Option ε) (ci : Nat) (c : Cell) (r : Row)
    (s : σ) : Visit σ ε :=
  { row := r, state := (cvf s c).1, calls := [{ ci := ci, cell := c, ret := (cvf s c).2 }],
    exit := match (cvf s c).2 with
      | none => Exit.ok
      | some e => Exit.error e }

/-- Sequencing `if err != nil { return err }` with the rest of a loop: the rest runs
only after a step that returned nil. -/
def Visit.andThen {σ ε : Type} (v : Visit σ ε) (k : Row → σ → Visit σ ε) : Visit σ ε :=
  match v.exit with
  | Exit.ok => { k v.row v.state with calls := v.calls ++ (k v.row v.state).calls }
  | _ => v

/-- The closure `fn` of `ForEachCell`.  A panic of `GetCell` leaves the Row as it
was before the call. -/
def fn {σ ε : Type} (flags : cellVisitorFlags) (cvf : σ → Cell → σ × Option ε) (r : Row)
    (s : σ) (ci : Nat) (c : Option Cell) : Visit σ ε :=
  match c with
  | none =>
    if flags.skipEmptyCells then
      Visit.skip r s
    else
      match GetCell r ci with
      | none => Visit.abort r s
      | some (c1, r1) =>
        if c1.Value = "" ∧ flags.skipEmptyCells = true then Visit.skip r1 s
        else invoke cvf ci c1 r1 s
  | some c1 =>
    if c1.Value = "" ∧ flags.skipEmptyCells = true then Visit.skip r s
    else invoke cvf ci c1 r s

/-- The loop `for ci, cell := range r.cells`, over the slice as it is when the loop
starts; `ci` is the index of the head of the remaining slots. -/
def rangeCells {σ ε : Type} (flags : cellVisitorFlags) (cvf : σ → Cell → σ × Option ε) :
    List (Option Cell) → Nat → Row → σ → Visit σ ε
  | [], _, r, s => Visit.skip r s
  | c :: rest, ci, r, s =>
    (fn flags cvf r s ci c).andThen (rangeCells flags cvf rest (ci + 1))

/-- The loop `for ci := cellCount; ci < r.Sheet.MaxCol; ci++`, with the number of
iterations left as first argument. -/
def padCells {σ ε : Type} (cvf : σ → Cell → σ × Option ε) : Nat → Nat → Row → σ → Visit σ ε
  | 0, _, r, s => Visit.skip r s
  | n + 1, ci, r, s =>
    match GetCell r ci with
    | none => Visit.abort r s
    | some (c, r1) => (invoke cvf ci c r1 s).andThen (padCells cvf n (ci + 1))

/-- The flags `ForEachCell` works with: every option applied, in order, to the
zero-valued `cellVisitorFlags`. -/
def applyOptions (option : List CellVisitorOption) : cellVisitorFlags :=
  option.foldl (fun flags opt => opt flags) { skipEmptyCells := false }

/-- The method `Row.ForEachCell`.  `sheet` is what `r.Sheet` points to (`none` for nil). -/
def ForEachCell {σ ε : Type} (sheet : Option Sheet) (r : Row)
    (cvf : σ → Cell → σ × Option ε) (s : σ) (option : List CellVisitorOption) : Visit σ ε :=
  let flags := applyOptions option
  (rangeCells flags cvf r.cells 0 r s).andThen fun r1 s1 =>
    let cellCount := r1.cells.length
    if flags.skipEmptyCells then
      Visit.skip r1 s1
    else
      match sheet with
      | none => Visit.abort r1 s1
      | some sh => padCells cvf (sh.MaxCol - cellCount).toNat cellCount r1 s1

/-- The log of a step is sound: either no invocation returned an error and the step
did not end with one, or the last invocation returned the error the step ended
with and no earlier one returned any. -/
def Visit.Sound {σ ε : Type} (v : Visit σ ε) : Prop :=
  ((∀ k ∈ v.calls, k.ret = none) ∧ ∀ e, v.exit ≠ Exit.error e) ∨
  ∃ pre last e, v.calls = pre ++ [last] ∧ (∀ k ∈ pre, k.ret = none) ∧
    last.ret = some e ∧ v.exit = Exit.error e

/-- The log records what the visitor returned: the error of every entry is the one
the visitor returns on the entry's Cell from some state. -/
def Visit.Logs {σ ε : Type} (cvf : σ → Cell → σ × Option ε) (v : Visit σ ε) : Prop :=
  ∀ k ∈ v.calls, ∃ s, k.ret = (cvf s k.cell).2

/-- The slots from index `ci` on that hold a Cell with a non-empty value, each with
its index, in slot order. -/
def populated : Nat → List (Option Cell) → List (Nat × Cell)
  | _, [] => []
  | ci, none :: rest => populated (ci + 1) rest
  | ci, some c :: rest =>
    if c.Value = "" then populated (ci + 1) rest else (ci, c) :: populated (ci + 1) rest

/-- The cells of the slots from index `ci` on, an absent slot giving the new Cell
of its index. -/
def filled : Nat → List (Option Cell) → List Cell
  | _, [] => []
  | ci, none :: rest => newCell ci :: filled (ci + 1) rest
  | ci, some c :: rest => c :: filled (ci + 1) rest

/-- The caller's assignment `cell.Value = v` through the pointer held in slot `i`. -/
def setValue (r : Row) (i : Nat) (v : String) : Row :=
  match r.cells[i]? with
  | some (some c) => { r with cells := r.cells.set i (some { c with Value := v }) }
  | _ => r

/-- A call of `AddCell` followed by the assignment of `v` to the returned Cell, which
`append` has put in the slot after the last one. -/
def addValued (grow : Nat → Nat) (r : Row) (v : String) : Row :=
  setValue (AddCell grow r).2 r.cells.length v

/-- One `addValued` per value, from left to right. -/
def addValues (grow : Nat → Nat) (r : Row) (vs : List String) : Row :=
  vs.foldl (addValued grow) r

/-- A run of `GetCell` calls, one per index, from left to right. -/
def getCells : Row → List Int → Option Row
  | r, [] => some r
  | r, i :: rest =>
    match GetCell r i with
    | none => none
    | some (_, r1) => getCells r1 rest

/-- Repeated `AddCell`: `n` calls, one after the other. -/
def addCells (grow : Nat → Nat) : Nat → Row → Row
  | 0, r => r
  | n + 1, r => addCells grow n (AddCell grow r).2

/-- The empty Row after five `AddCell` calls: length 5, capacity 8. -/
def fiveCells : Row :=
  addCells goGrow 5 emptyRow

/-- The empty Row after three `AddCell` calls whose cells got the values a, b, c. -/
def abcRow : Row :=
  addValues goGrow emptyRow ["a", "b", "c"]

/-- The empty Row after five `AddCell` calls whose cells got the values a to e. -/
def abcdeRow : Row :=
  addValues goGrow emptyRow ["a", "b", "c", "d", "e"]

/-- The empty Row after `GetCell(1)`: slot 0 absent, slot 1 materialized. -/
def afterGetCell1 : Row :=
  (getCells emptyRow [1]).getD emptyRow

/-- The empty Row after `GetCell(2)`: slots 0 and 1 absent, slot 2 materialized. -/
def afterGetCell2 : Row :=
  (getCells emptyRow [2]).getD emptyRow

/-- The empty Row after `GetCell(1)` and then `AddCell`. -/
def getThenAdd : Row :=
  (AddCell goGrow afterGetCell1).2

/-- The empty Row after `GetCell(0)` and then `AddCell`: two cells, no absent slot. -/
def getZeroThenAdd : Row :=
  (AddCell goGrow ((getCells emptyRow [0]).getD emptyRow)).2

/-- The empty Row after `GetCell(2)` and `GetCell(0)`, the two cells given the
values x and z: cells at indices 0 and 2, index 1 absent. -/
def sparseRow : Row :=
  setValue (setValue ((getCells emptyRow [2, 0]).getD emptyRow) 0 "x") 2 "z"

/-- A visitor that never fails and keeps no state. -/
def okVisitor : Unit → Cell → Unit × Option String :=
  fun _ _ => ((), none)

/-- A visitor that counts its invocations and fails on the `n`-th with `e`. -/
def failAt (n : Nat) (e : String) : Nat → Cell → Nat × Option String :=
  fun k _ => (k + 1, if k + 1 = n then some e else none)

/-- The method `Row.SetOutlineLevel`.  `sheet` is what `r.Sheet` points to (`none`
for nil); the result is the Row and the Sheet after the call.  The `uint8`
levels are natural numbers, which the method only assigns and compares. -/
def SetOutlineLevel (sheet : Option Sheet) (r : Row) (outlineLevel : Nat) :
    Row × Option Sheet :=
  let r1 := { r with outlineLevel := outlineLevel }
  match sheet with
  | none => (r1, none)
  | some sh =>
    if r1.outlineLevel > sh.OutlineLevelRow then
      (r1, some { sh with OutlineLevelRow := outlineLevel })
    else
      (r1, some sh)

/-- A run of `SetOutlineLevel` calls on the Rows of one Sheet: each entry names a
Row by its position and the level to set; an entry naming no Row is passed over. -/
def setOutlineLevels : Sheet → List Row → List (Nat × Nat) → Sheet × List Row
  | sh, rows, [] => (sh, rows)
  | sh, rows, (i, l) :: rest =>
    match rows[i]? with
    | none => setOutlineLevels sh rows rest
    | some r =>
      setOutlineLevels ((SetOutlineLevel (some sh) r l).2.getD sh)
        (rows.set i (SetOutlineLevel (some sh) r l).1) rest

/-- What the `switch` on the number of sheets and the index expression
`xlFile.Sheets[sheetIndex]` of `generateCSVFromXLSXFile` come to: one of the two
errors returned, a panic of the index expression, or the Sheet selected. -/
inductive Selection (α : Type) where
  | noSheets : Selection α
  | noSuchSheet (sheetIndex last : Int) : Selection α
  | indexPanic : Selection α
  | selected (sheet : α) : Selection α
deriving DecidableEq

/-- The selection of the Sheet in `generateCSVFromXLSXFile`: the `switch` and then
`sheet := xlFile.Sheets[sheetIndex]`. -/
def selectSheet {α : Type} (sheets : List α) (sheetIndex : Int) : Selection α :=
  let sheetLen : Int := sheets.length
  if sheetLen = 0 then
    Selection.noSheets
  else if sheetIndex ≥ sheetLen then
    Selection.noSuchSheet sheetIndex (sheetLen - 1)
  else if sheetIndex < 0 then
    Selection.indexPanic
  else
    match sheets[sheetIndex.toNat]? with
    | none => Selection.indexPanic
    | some sheet => Selection.selected sheet

/-- The variables the row callback of `generateCSVFromXLSXFile` closes over: the
counter `walked`, the buffer `vals`, and the records given to `cw.Write`. -/
structure Extract where
  walked : Int
  vals : List String
  written : List (List String)
deriving DecidableEq

/-- The cell callback of `generateCSVFromXLSXFile`.  `cell.FormattedValue()` (not
part of the sources at hand) is the parameter `format`, which gives a string or
an error. -/
def cellCallback (format : Cell → Except String String) :
    List String → Cell → List String × Option String :=
  fun vals cell =>
    match format cell with
    | Except.error err => (vals, some err)
    | Except.ok str => (vals ++ [str], none)

/-- What one call of the row callback leaves behind: the closure's variables, the
Row and the way the call ended. -/
structure Walk where
  extract : Extract
  row : Option Row
  exit : Exit String
deriving DecidableEq

/-- The row callback of `generateCSVFromXLSXFile`.  `row` is `none` for a nil
pointer, on which `row.GetCellCount()` panics; `sheet` is what `row.Sheet` points
to. -/
def rowCallback (format : Cell → Except String String) (sheet : Option Sheet)
    (rowLimit : Int) (compact : Bool) (st : Extract) (row : Option Row) : Walk :=
  if rowLimit > 0 ∧ st.walked > rowLimit then
    { extract := st, row := row, exit := Exit.ok }
  else
    let st1 := { st with walked := st.walked + 1 }
    match row with
    | none => { extract := st1, row := none, exit := Exit.panicked }
    | some r =>
      let cellCount := GetCellCount r
      if cellCount > 0 ∨ compact = false then
        let v := ForEachCell sheet r (cellCallback format) [] []
        match v.exit with
        | Exit.ok =>
          { extract := { st1 with vals := v.state, written := st1.written ++ [v.state] },
            row := some v.row, exit := Exit.ok }
        | Exit.error err =>
          { extract := { st1 with vals := v.state }, row := some v.row,
            exit := Exit.error err }
        | Exit.panicked =>
          { extract := { st1 with vals := v.state }, row := some v.row,
            exit := Exit.panicked }
      else
        { extract := st1, row := some r, exit := Exit.ok }

/-- Modelled from the spec: `Sheet.ForEachRow` (not part of the sources at hand).
The Sheet owns its Rows; the callback is called on each of them in order, and the
first call that does not return nil ends the run.  The result is the closure's
variables, the Rows as the calls left them, and the way the run ended. -/
def ForEachRow (format : Cell → Except String String) (sheet : Option Sheet)
    (rowLimit : Int) (compact : Bool) :
    Extract → List (Option Row) → Extract × List (Option Row) × Exit String
  | st, [] => (st, [], Exit.ok)
  | st, row :: rest =>
    match (rowCallback format sheet rowLimit compact st row).exit with
    | Exit.ok =>
      ((ForEachRow format sheet rowLimit compact
          (rowCallback format sheet rowLimit compact st row).extract rest).1,
        (rowCallback format sheet rowLimit compact st row).row ::
          (ForEachRow format sheet rowLimit compact
            (rowCallback format sheet rowLimit compact st row).extract rest).2.1,
        (ForEachRow format sheet rowLimit compact
          (rowCallback format sheet rowLimit compact st row).extract rest).2.2)
    | e =>
      ((rowCallback format sheet rowLimit compact st row).extract,
        (rowCallback format sheet rowLimit compact st row).row :: rest, e)

/-- A `FormattedValue` that gives the raw value and never fails. -/
def rawValue : Cell → Except String String :=
  fun cell => Except.ok cell.Value

/-- A `FormattedValue` that always fails. -/
def badFormat : Cell → Except String String :=
  fun _ => Except.error "bad format"

/-- The closure's variables when `ForEachRow` starts: `walked = 0`, nil `vals`. -/
def extractStart : Extract :=
  { walked := 0, vals := [], written := [] }

/-- A Row of one appended cell with the value `v`: length 1, capacity 1. -/
def oneCell (v : String) : Row :=
  addValues goGrow emptyRow [v]

/-- The empty Row after `GetCell(0)`, the cell given the value x: one materialized
cell, cell count 0. -/
def gotCellRow : Row :=
  setValue ((getCells emptyRow [0]).getD emptyRow) 0 "x"

/-- The Row that the default traversal of the three appended cells a, b, c leaves
behind with `MaxCol = 5`. -/
def abcPadded : Row :=
  (ForEachCell (some ⟨5, 0⟩) abcRow okVisitor () []).row

/-! ## Lemmas on `GetCell` -/

theorem GetCell_neg (r : Row) (i : Int) (h : i < 0) : GetCell r i = none := by
  unfold GetCell
  have : ¬ (i ≥ (r.cells.length : Int)) := by omega
  simp [this, h]

theorem lt_of_slot {α : Type} (l : List α) (n : Nat) (a : α) (h : l[n]? = some a) :
    n < l.length := by
  rcases Nat.lt_or_ge n l.length with h1 | h1
  · exact h1
  · rw [List.getElem?_eq_none h1] at h; cases h

theorem GetCell_some (r : Row) (n : Nat) (c : Cell) (h : r.cells[n]? = some (some c)) :
    GetCell r (n : Int) = some (c, r) := by
  have hlt := lt_of_slot _ _ _ h
  unfold GetCell
  have h1 : ¬ ((n : Int) ≥ (r.cells.length : Int)) := by omega
  have h2 : ¬ ((n : Int) < 0) := by omega
  simp [h1, h2, h]

theorem GetCell_hole (r : Row) (n : Nat) (h : r.cells[n]? = some none) :
    GetCell r (n : Int) =
      some (newCell n, { r with cells := r.cells.set n (some (newCell n)) }) := by
  have hlt := lt_of_slot _ _ _ h
  unfold GetCell
  have h1 : ¬ ((n : Int) ≥ (r.cells.length : Int)) := by omega
  have h2 : ¬ ((n : Int) < 0) := by omega
  simp [h1, h2, h]

theorem makeCopy_length (n : Nat) (src : List (Option Cell)) (h : src.length ≤ n) :
    (makeCopy n src).length = n := by
  unfold makeCopy
  simp
  omega

theorem makeCopy_eq (n : Nat) (src : List (Option Cell)) (h : src.length ≤ n) :
    makeCopy n src = src ++ List.replicate (n - src.length) none := by
  unfold makeCopy
  rw [List.take_of_length_le h]

theorem GetCell_grow (r : Row) (n : Nat) (hlen : r.cells.length ≤ n) (hcap : r.cellsCap ≤ n + 1) :
    GetCell r (n : Int) =
      some (newCell n,
        { r with
          cells := (makeCopy (max (2 * r.cellsCap) (n + 1)) r.cells).set n (some (newCell n))
          cellsCap := max (2 * r.cellsCap) (n + 1) }) := by
  unfold GetCell growCellsSlice
  have h1 : ((n : Int) ≥ (r.cells.length : Int)) := by omega
  have h2 : ((n : Int) + 1 ≥ (r.cellsCap : Int)) := by omega
  have h3 : (if (n : Int) + 1 > 2 * (r.cellsCap : Int) then (n : Int) + 1 else 2 * (r.cellsCap : Int)).toNat
      = max (2 * r.cellsCap) (n + 1) := by
    split <;> omega
  simp only [h1, h2, if_true, h3]
  have h4 : n < (makeCopy (max (2 * r.cellsCap) (n + 1)) r.cells).length := by
    rw [makeCopy_length _ _ (by omega)]; omega
  simp [h4]

theorem GetCell_panic (r : Row) (n : Nat) (hlen : r.cells.length ≤ n) (hcap : n + 1 < r.cellsCap) :
    GetCell r (n : Int) = none := by
  unfold GetCell growCellsSlice
  have h1 : ((n : Int) ≥ (r.cells.length : Int)) := by omega
  have h2 : ¬ ((n : Int) + 1 ≥ (r.cellsCap : Int)) := by omega
  simp only [h1, h2, if_true, if_false]
  have h4 : ¬ (n < r.cells.length) := by omega
  simp [h4]

/-- The four ways a call `GetCell r n` can go. -/
theorem GetCell_cases (r : Row) (n : Nat) :
    (∃ c, r.cells[n]? = some (some c) ∧ GetCell r (n : Int) = some (c, r)) ∨
    (r.cells[n]? = some none ∧ GetCell r (n : Int) =
      some (newCell n, { r with cells := r.cells.set n (some (newCell n)) })) ∨
    (r.cells.length ≤ n ∧ r.cellsCap ≤ n + 1 ∧ GetCell r (n : Int) =
      some (newCell n,
        { r with
          cells := (makeCopy (max (2 * r.cellsCap) (n + 1)) r.cells).set n (some (newCell n))
          cellsCap := max (2 * r.cellsCap) (n + 1) })) ∨
    (r.cells.length ≤ n ∧ n + 1 < r.cellsCap ∧ GetCell r (n : Int) = none) := by
  rcases Nat.lt_or_ge n r.cells.length with h | h
  · have hs : r.cells[n]? = some (r.cells[n]) := List.getElem?_eq_getElem h
    cases hc : r.cells[n] with
    | some c =>
      rw [hc] at hs
      exact Or.inl ⟨c, hs, GetCell_some r n c hs⟩
    | none =>
      rw [hc] at hs
      exact Or.inr (Or.inl ⟨hs, GetCell_hole r n hs⟩)
  · rcases Nat.lt_or_ge (n + 1) r.cellsCap with h2 | h2
    · exact Or.inr (Or.inr (Or.inr ⟨h, h2, GetCell_panic r n h h2⟩))
    · exact Or.inr (Or.inr (Or.inl ⟨h, h2, GetCell_grow r n h h2⟩))

/-- A completed `GetCell` leaves the returned Cell in the slot asked for. -/
theorem GetCell_stored (r r1 : Row) (i : Int) (c : Cell) (h : GetCell r i = some (c, r1)) :
    ∃ n : Nat, i = (n : Int) ∧ r1.cells[n]? = some (some c) := by
  rcases Int.lt_or_le i 0 with hneg | hpos
  · rw [GetCell_neg r i hneg] at h; cases h
  · obtain ⟨n, rfl⟩ := Int.eq_ofNat_of_zero_le hpos
    refine ⟨n, rfl, ?_⟩
    rcases GetCell_cases r n with ⟨c0, hs, hg⟩ | ⟨hs, hg⟩ | ⟨hl, hc, hg⟩ | ⟨hl, hc, hg⟩
    · rw [hg] at h; cases h; exact hs
    · rw [hg] at h; cases h
      have := lt_of_slot _ _ _ hs
      simp [List.getElem?_set, this]
    · rw [hg] at h; cases h
      have : n < (makeCopy (max (2 * r.cellsCap) (n + 1)) r.cells).length := by
        rw [makeCopy_length _ _ (by omega)]; omega
      simp [List.getElem?_set, this]
    · rw [hg] at h; cases h

/-- A completed `GetCell` leaves every Cell of the Row in its slot. -/
theorem GetCell_frame (r r1 : Row) (i : Int) (c1 : Cell) (j : Nat) (c : Cell)
    (h : GetCell r i = some (c1, r1)) (hj : r.cells[j]? = some (some c)) :
    r1.cells[j]? = some (some c) := by
  rcases Int.lt_or_le i 0 with hneg | hpos
  · rw [GetCell_neg r i hneg] at h; cases h
  · obtain ⟨n, rfl⟩ := Int.eq_ofNat_of_zero_le hpos
    have hjl := lt_of_slot _ _ _ hj
    rcases GetCell_cases r n with ⟨c0, hs, hg⟩ | ⟨hs, hg⟩ | ⟨hl, hc, hg⟩ | ⟨hl, hc, hg⟩
    · rw [hg] at h; cases h; exact hj
    · rw [hg] at h; cases h
      have hne : n ≠ j := by
        intro e; subst e; rw [hs] at hj; cases hj
      simp [List.getElem?_set, hne, hj]
    · rw [hg] at h; cases h
      have hne : n ≠ j := by omega
      simp only [List.getElem?_set, hne, if_false]
      rw [makeCopy_eq _ _ (by omega), List.getElem?_append_left hjl]
      exact hj
    · rw [hg] at h; cases h

/-! ### The visitor's log: an error ends the traversal -/

theorem Sound_skip {σ ε : Type} (r : Row) (s : σ) : (Visit.skip r s : Visit σ ε).Sound := by
  left
  simp [Visit.skip]

theorem Sound_abort {σ ε : Type} (r : Row) (s : σ) : (Visit.abort r s : Visit σ ε).Sound := by
  left
  simp [Visit.abort]

theorem Sound_invoke {σ ε : Type} (cvf : σ → Cell → σ × Option ε) (ci : Nat) (c : Cell)
    (r : Row) (s : σ) : (invoke cvf ci c r s).Sound := by
  unfold Visit.Sound invoke
  cases h : (cvf s c).2 with
  | none => left; simp
  | some e => right; exact ⟨[], { ci := ci, cell := c, ret := some e }, e, by simp, by simp, rfl, rfl⟩

theorem Sound_andThen {σ ε : Type} (v : Visit σ ε) (k : Row → σ → Visit σ ε)
    (hv : v.Sound) (hk : ∀ r s, (k r s).Sound) : (v.andThen k).Sound := by
  unfold Visit.andThen
  cases hx : v.exit with
  | error e => simpa using hv
  | panicked => simpa using hv
  | ok =>
    simp only
    rcases hv with ⟨hnone, _⟩ | ⟨pre, last, e, _, _, _, he⟩
    · rcases hk v.row v.state with ⟨hn2, hx2⟩ | ⟨pre, last, e, hc, hp, hl, he⟩
      · left
        refine ⟨?_, hx2⟩
        intro c hc
        rcases List.mem_append.mp hc with h | h
        · exact hnone c h
        · exact hn2 c h
      · right
        refine ⟨v.calls ++ pre, last, e, ?_, ?_, hl, he⟩
        · simp [hc]
        · intro c hc
          rcases List.mem_append.mp hc with h | h
          · exact hnone c h
          · exact hp c h
    · rw [hx] at he; cases he

theorem Sound_fn {σ ε : Type} (flags : cellVisitorFlags) (cvf : σ → Cell → σ × Option ε)
    (r : Row) (s : σ) (ci : Nat) (c : Option Cell) : (fn flags cvf r s ci c).Sound := by
  unfold fn
  split
  · split
    · exact Sound_skip r s
    · split
      · exact Sound_abort r s
      · split
        · exact Sound_skip _ s
        · exact Sound_invoke cvf ci _ _ s
  · split
    · exact Sound_skip r s
    · exact Sound_invoke cvf ci _ r s

theorem Sound_rangeCells {σ ε : Type} (flags : cellVisitorFlags)
    (cvf : σ → Cell → σ × Option ε) (cells : List (Option Cell)) :
    ∀ (ci : Nat) (r : Row) (s : σ), (rangeCells flags cvf cells ci r s).Sound := by
  induction cells with
  | nil => intro ci r s; exact Sound_skip r s
  | cons c rest ih =>
    intro ci r s
    unfold rangeCells
    exact Sound_andThen _ _ (Sound_fn flags cvf r s ci c) (ih (ci + 1))

theorem Sound_padCells {σ ε : Type} (cvf : σ → Cell → σ × Option ε) (n : Nat) :
    ∀ (ci : Nat) (r : Row) (s : σ), (padCells cvf n ci r s).Sound := by
  induction n with
  | zero => intro ci r s; exact Sound_skip r s
  | succ n ih =>
    intro ci r s
    unfold padCells
    split
    · exact Sound_abort r s
    · exact Sound_andThen _ _ (Sound_invoke cvf ci _ _ s) (ih (ci + 1))

theorem Sound_ForEachCell {σ ε : Type} (sheet : Option Sheet) (r : Row)
    (cvf : σ → Cell → σ × Option ε) (s : σ) (option : List CellVisitorOption) :
    (ForEachCell sheet r cvf s option).Sound := by
  unfold ForEachCell
  apply Sound_andThen _ _ (Sound_rangeCells _ cvf r.cells 0 r s)
  intro r1 s1
  simp only
  split
  · exact Sound_skip r1 s1
  · split
    · exact Sound_abort r1 s1
    · exact Sound_padCells cvf _ _ r1 s1

/-- In a sound log the invocation that returned an error is the last one, and its
error is the one the step ended with. -/
theorem Sound_error {σ ε : Type} (v : Visit σ ε) (hv : v.Sound) (n : Nat) (k : Call ε) (e : ε)
    (hk : v.calls[n]? = some k) (he : k.ret = some e) :
    v.exit = Exit.error e ∧ v.calls.length = n + 1 := by
  rcases hv with ⟨hnone, _⟩ | ⟨pre, last, e1, hc, hp, hl, hx⟩
  · have := hnone k (List.getElem?_mem hk)
    rw [this] at he; cases he
  · rw [hc] at hk
    rcases Nat.lt_or_ge n pre.length with h | h
    · rw [List.getElem?_append_left h] at hk
      have := hp k (List.getElem?_mem hk)
      rw [this] at he; cases he
    · rw [List.getElem?_append_right h] at hk
      have hn : n - pre.length = 0 := by
        rcases Nat.eq_zero_or_pos (n - pre.length) with h0 | h0
        · exact h0
        · have : ([last] : List (Call ε))[n - pre.length]? = none :=
            List.getElem?_eq_none (by simp; omega)
          rw [this] at hk; cases hk
      rw [hn] at hk
      simp at hk
      subst hk
      rw [hl] at he
      cases he
      refine ⟨hx, ?_⟩
      rw [hc]
      simp
      omega

/-! ### The two loops of `ForEachCell` under a visitor that never fails -/

theorem andThen_ok {σ ε : Type} (v : Visit σ ε) (k : Row → σ → Visit σ ε)
    (h : v.exit = Exit.ok) :
    v.andThen k = { k v.row v.state with calls := v.calls ++ (k v.row v.state).calls } := by
  unfold Visit.andThen
  rw [h]

theorem invoke_ok {σ ε : Type} (cvf : σ → Cell → σ × Option ε) (ci : Nat) (c : Cell) (r : Row)
    (s : σ) (h : (cvf s c).2 = none) :
    invoke cvf ci c r s =
      { row := r, state := (cvf s c).1, calls := [{ ci := ci, cell := c, ret := none }],
        exit := Exit.ok } := by
  unfold invoke
  rw [h]

/-- Under `SkipEmptyCells` the range loop leaves the Row as it is and invokes the
visitor on the populated slots. -/
theorem rangeCells_skip {σ ε : Type} (flags : cellVisitorFlags)
    (hskip : flags.skipEmptyCells = true) (cvf : σ → Cell → σ × Option ε)
    (hok : ∀ s c, (cvf s c).2 = none) (cells : List (Option Cell)) :
    ∀ (ci : Nat) (r : Row) (s : σ),
      (rangeCells flags cvf cells ci r s).row = r ∧
      (rangeCells flags cvf cells ci r s).exit = Exit.ok ∧
      (rangeCells flags cvf cells ci r s).calls.map (fun k => (k.ci, k.cell)) =
        populated ci cells := by
  induction cells with
  | nil => intro ci r s; simp [rangeCells, Visit.skip, populated]
  | cons c rest ih =>
    intro ci r s
    unfold rangeCells
    cases c with
    | none =>
      have hfn : fn flags cvf r s ci none = Visit.skip r s := by simp [fn, hskip]
      rw [hfn, andThen_ok _ _ rfl]
      obtain ⟨h1, h2, h3⟩ := ih (ci + 1) r s
      simp [Visit.skip, populated, h1, h2, h3]
    | some c1 =>
      by_cases hv : c1.Value = ""
      · have hfn : fn flags cvf r s ci (some c1) = Visit.skip r s := by simp [fn, hskip, hv]
        rw [hfn, andThen_ok _ _ rfl]
        obtain ⟨h1, h2, h3⟩ := ih (ci + 1) r s
        simp [Visit.skip, populated, h1, h2, h3, hv]
      · have hfn : fn flags cvf r s ci (some c1) = invoke cvf ci c1 r s := by
          simp [fn, hv]
        rw [hfn, invoke_ok _ _ _ _ _ (hok s c1), andThen_ok _ _ rfl]
        obtain ⟨h1, h2, h3⟩ := ih (ci + 1) r (cvf s c1).1
        simp [populated, h1, h2, h3, hv]

theorem populated_mem (cells : List (Option Cell)) :
    ∀ (ci i : Nat) (c : Cell), (i, c) ∈ populated ci cells ↔
      ∃ j, i = ci + j ∧ cells[j]? = some (some c) ∧ c.Value ≠ "" := by
  induction cells with
  | nil => intro ci i c; simp [populated]
  | cons o rest ih =>
    intro ci i c
    have key : (∃ j, i = ci + j ∧ (o :: rest)[j]? = some (some c) ∧ c.Value ≠ "") ↔
        (i = ci ∧ o = some c ∧ c.Value ≠ "") ∨
        (∃ j, i = ci + 1 + j ∧ rest[j]? = some (some c) ∧ c.Value ≠ "") := by
      constructor
      · rintro ⟨j, hj, hs, hv⟩
        cases j with
        | zero => left; simp at hs; exact ⟨by omega, hs, hv⟩
        | succ j => right; simp at hs; exact ⟨j, by omega, hs, hv⟩
      · rintro (⟨hi, ho, hv⟩ | ⟨j, hj, hs, hv⟩)
        · exact ⟨0, by omega, by simp [ho], hv⟩
        · exact ⟨j + 1, by omega, by simpa using hs, hv⟩
    rw [key, ← ih (ci + 1) i c]
    cases o with
    | none =>
      simp only [populated]
      constructor
      · intro h; exact Or.inr h
      · rintro (⟨_, h, _⟩ | h)
        · cases h
        · exact h
    | some c2 =>
      simp only [populated]
      split
      · rename_i hv
        constructor
        · intro h; exact Or.inr h
        · rintro (⟨_, h, hv2⟩ | h)
          · cases h; exact absurd hv hv2
          · exact h
      · rename_i hv
        constructor
        · intro h
          rcases List.mem_cons.mp h with h | h
          · cases h; exact Or.inl ⟨rfl, rfl, hv⟩
          · exact Or.inr h
        · rintro (⟨hi, h, _⟩ | h)
          · cases h; subst hi; exact List.mem_cons_self _ _
          · exact List.mem_cons_of_mem _ h

theorem populated_sorted (cells : List (Option Cell)) :
    ∀ ci : Nat, ((populated ci cells).map Prod.fst).Pairwise (fun a b => a < b) := by
  induction cells with
  | nil => intro ci; simp [populated]
  | cons o rest ih =>
    intro ci
    cases o with
    | none => simpa [populated] using ih (ci + 1)
    | some c =>
      simp only [populated]
      split
      · exact ih (ci + 1)
      · simp only [List.map_cons, List.pairwise_cons]
        refine ⟨?_, ih (ci + 1)⟩
        intro b hb
        obtain ⟨⟨i, c2⟩, hm, rfl⟩ := List.mem_map.mp hb
        obtain ⟨j, hj, _⟩ := (populated_mem rest (ci + 1) i c2).mp hm
        simp only
        omega

theorem filled_length (cells : List (Option Cell)) :
    ∀ ci : Nat, (filled ci cells).length = cells.length := by
  induction cells with
  | nil => intro ci; rfl
  | cons o rest ih =>
    intro ci
    cases o <;> simp [filled, ih]

theorem filled_getElem? (cells : List (Option Cell)) :
    ∀ (ci j : Nat), (filled ci cells)[j]? =
      (cells[j]?).map (fun o => o.getD (newCell ((ci + j : Nat) : Int))) := by
  induction cells with
  | nil => intro ci j; simp [filled]
  | cons o rest ih =>
    intro ci j
    cases j with
    | zero => cases o <;> simp [filled]
    | succ j =>
      cases o <;> simp only [filled, List.getElem?_cons_succ, ih] <;>
        rw [show ci + 1 + j = ci + (j + 1) by omega]

theorem drop_set_succ {α : Type} (l : List α) (n : Nat) (a : α) :
    (l.set n a).drop (n + 1) = l.drop (n + 1) := by
  apply List.ext_getElem?
  intro j
  simp only [List.getElem?_drop, List.getElem?_set]
  have : n ≠ n + 1 + j := by omega
  simp [this]

theorem take_set_succ {α : Type} (l : List α) (n : Nat) (a : α) (h : n < l.length) :
    (l.set n a).take (n + 1) = l.take n ++ [a] := by
  apply List.ext_getElem?
  intro j
  rcases Nat.lt_trichotomy j n with hj | hj | hj
  · have h1 : j < n + 1 := by omega
    have h2 : j < (l.take n).length := by simp; omega
    have h3 : n ≠ j := by omega
    rw [List.getElem?_take_of_lt h1, List.getElem?_append_left h2, List.getElem?_take_of_lt hj,
      List.getElem?_set]
    simp [h3]
  · subst hj
    have h1 : j < j + 1 := by omega
    have h2 : (l.take j).length ≤ j := by simp
    rw [List.getElem?_take_of_lt h1, List.getElem?_append_right h2, List.getElem?_set]
    simp [h, Nat.min_eq_left (Nat.le_of_lt h)]
  · have h1 : (l.take n ++ [a]).length ≤ j := by simp; omega
    rw [List.getElem?_eq_none h1, List.getElem?_eq_none (by simp; omega)]

theorem take_succ_of_slot {α : Type} (l : List α) (n : Nat) (a : α) (h : l[n]? = some a) :
    l.take (n + 1) = l.take n ++ [a] := by
  rw [List.take_succ, h]
  rfl

/-- Without `SkipEmptyCells` the range loop invokes the visitor once per slot, on
the Cell of the slot or on the new Cell it puts in an absent one; the slice keeps
its length and capacity. -/
theorem rangeCells_default {σ ε : Type} (flags : cellVisitorFlags)
    (hskip : flags.skipEmptyCells = false) (cvf : σ → Cell → σ × Option ε)
    (hok : ∀ s c, (cvf s c).2 = none) (rest : List (Option Cell)) :
    ∀ (ci : Nat) (r : Row) (s : σ), r.cells.drop ci = rest →
      (rangeCells flags cvf rest ci r s).row =
        { r with cells := r.cells.take ci ++ (filled ci rest).map some } ∧
      (rangeCells flags cvf rest ci r s).exit = Exit.ok ∧
      (rangeCells flags cvf rest ci r s).calls.map (fun k => k.cell) = filled ci rest ∧
      (rangeCells flags cvf rest ci r s).calls.map (fun k => k.ci) =
        List.range' ci rest.length := by
  induction rest with
  | nil =>
    intro ci r s hd
    have hl : r.cells.length ≤ ci := by
      have := congrArg List.length hd
      simp at this
      omega
    simp [rangeCells, Visit.skip, filled, List.take_of_length_le hl]
  | cons c rest ih =>
    intro ci r s hd
    have hslot : r.cells[ci]? = some c := by
      have := List.getElem?_drop r.cells ci 0
      rw [hd] at this
      simpa using this.symm
    have hlt := lt_of_slot _ _ _ hslot
    have hd1 : r.cells.drop (ci + 1) = rest := by
      have := List.drop_eq_getElem_cons hlt
      rw [hd] at this
      exact (List.cons.inj this).2.symm
    unfold rangeCells
    cases c with
    | some c1 =>
      have hfn : fn flags cvf r s ci (some c1) = invoke cvf ci c1 r s := by
        simp [fn, hskip]
      rw [hfn, invoke_ok _ _ _ _ _ (hok s c1), andThen_ok _ _ rfl]
      obtain ⟨h1, h2, h3, h4⟩ := ih (ci + 1) r (cvf s c1).1 hd1
      refine ⟨?_, h2, ?_, ?_⟩
      · simp only [h1]
        rw [take_succ_of_slot _ _ _ hslot]
        simp [filled]
      · simp [filled, h3]
      · simp [h4, List.range'_succ]
    | none =>
      have hfn : fn flags cvf r s ci none =
          invoke cvf ci (newCell ci)
            { r with cells := r.cells.set ci (some (newCell ci)) } s := by
        simp [fn, hskip, GetCell_hole r ci hslot, newCell]
      rw [hfn, invoke_ok _ _ _ _ _ (hok s _), andThen_ok _ _ rfl]
      obtain ⟨h1, h2, h3, h4⟩ := ih (ci + 1)
        { r with cells := r.cells.set ci (some (newCell ci)) } (cvf s (newCell ci)).1
        (by simp only [drop_set_succ]; exact hd1)
      refine ⟨?_, h2, ?_, ?_⟩
      · simp only [h1]
        rw [take_set_succ _ _ _ hlt]
        simp [filled]
      · simp [filled, h3]
      · simp [h4, List.range'_succ]

/-- From a slice without spare capacity beyond one slot, whose slots from `ci` on
are absent, the padding loop completes and invokes the visitor on the new cells of
columns `ci`, `ci + 1`, ... -/
theorem padCells_ok {σ ε : Type} (cvf : σ → Cell → σ × Option ε)
    (hok : ∀ s c, (cvf s c).2 = none) (n : Nat) :
    ∀ (ci : Nat) (r : Row) (s : σ), ci ≤ r.cells.length → r.cellsCap ≤ r.cells.length + 1 →
      (∀ j, ci ≤ j → j < r.cells.length → r.cells[j]? = some none) →
      (padCells cvf n ci r s).exit = Exit.ok ∧
      (padCells cvf n ci r s).calls.map (fun k => k.cell) =
        (List.range' ci n).map (fun (j : Nat) => newCell (j : Int)) ∧
      (padCells cvf n ci r s).calls.map (fun k => k.ci) = List.range' ci n := by
  induction n with
  | zero => intro ci r s _ _ _; simp [padCells, Visit.skip]
  | succ n ih =>
    intro ci r s hci hcap habs
    unfold padCells
    rcases GetCell_cases r ci with ⟨c0, hs, _⟩ | ⟨hs, hg⟩ | ⟨hl, hc, hg⟩ | ⟨hl, hc, _⟩
    · have := habs ci (Nat.le_refl _) (lt_of_slot _ _ _ hs)
      rw [this] at hs; cases hs
    · have hlt := lt_of_slot _ _ _ hs
      rw [hg]
      simp only
      rw [invoke_ok _ _ _ _ _ (hok s _), andThen_ok _ _ rfl]
      obtain ⟨h2, h3, h4⟩ := ih (ci + 1)
        { r with cells := r.cells.set ci (some (newCell ci)) } (cvf s (newCell ci)).1
        (by simp; omega) (by simpa using hcap)
        (by
          intro j hj hjl
          have hne : ci ≠ j := by omega
          simp only [List.getElem?_set, hne, if_false]
          exact habs j (by omega) (by simpa using hjl))
      refine ⟨h2, ?_, ?_⟩
      · simp [h3, List.range'_succ]
      · simp [h4, List.range'_succ]
    · rw [hg]
      simp only
      rw [invoke_ok _ _ _ _ _ (hok s _), andThen_ok _ _ rfl]
      have hlen : (makeCopy (max (2 * r.cellsCap) (ci + 1)) r.cells).length =
          max (2 * r.cellsCap) (ci + 1) := makeCopy_length _ _ (by omega)
      obtain ⟨h2, h3, h4⟩ := ih (ci + 1)
        { r with
          cells := (makeCopy (max (2 * r.cellsCap) (ci + 1)) r.cells).set ci (some (newCell ci))
          cellsCap := max (2 * r.cellsCap) (ci + 1) } (cvf s (newCell ci)).1
        (by simp [hlen]) (by simp [hlen])
        (by
          intro j hj hjl
          have hne : ci ≠ j := by omega
          simp only [List.length_set, hlen] at hjl
          simp only [List.getElem?_set, hne, if_false]
          rw [makeCopy_eq _ _ (by omega), List.getElem?_append_right (by omega)]
          exact List.getElem?_replicate_of_lt (by omega))
      refine ⟨h2, ?_, ?_⟩
      · simp [h3, List.range'_succ]
      · simp [h4, List.range'_succ]
    · omega

/-! ### `ForEachCell` as a whole -/

/-- With `SkipEmptyCells` in force and a visitor that never fails, `ForEachCell`
returns nil, leaves the Row as it is and invokes the visitor on the populated
slots; the Sheet is not consulted. -/
theorem ForEachCell_skip {σ ε : Type} (sheet : Option Sheet) (r : Row)
    (cvf : σ → Cell → σ × Option ε) (s : σ) (option : List CellVisitorOption)
    (hskip : (applyOptions option).skipEmptyCells = true)
    (hok : ∀ s c, (cvf s c).2 = none) :
    (ForEachCell sheet r cvf s option).row = r ∧
    (ForEachCell sheet r cvf s option).exit = Exit.ok ∧
    (ForEachCell sheet r cvf s option).calls.map (fun k => (k.ci, k.cell)) =
      populated 0 r.cells := by
  obtain ⟨h1, h2, h3⟩ := rangeCells_skip (applyOptions option) hskip cvf hok r.cells 0 r s
  unfold ForEachCell
  simp only [hskip, if_true]
  rw [andThen_ok _ _ h2]
  simp [Visit.skip, h1, h3]

/-- Without `SkipEmptyCells`, with a Sheet, a visitor that never fails and either
no padding to do or at most one spare slot of capacity, `ForEachCell` returns nil
after invoking the visitor once per backing slot and once per padding column. -/
theorem ForEachCell_default {σ ε : Type} (sh : Sheet) (r : Row)
    (cvf : σ → Cell → σ × Option ε) (s : σ) (option : List CellVisitorOption)
    (hskip : (applyOptions option).skipEmptyCells = false)
    (hok : ∀ s c, (cvf s c).2 = none)
    (hroom : sh.MaxCol ≤ (r.cells.length : Int) ∨ r.cellsCap ≤ r.cells.length + 1) :
    (ForEachCell (some sh) r cvf s option).exit = Exit.ok ∧
    (ForEachCell (some sh) r cvf s option).calls.map (fun k => k.cell) =
      filled 0 r.cells ++
        (List.range' r.cells.length (sh.MaxCol - (r.cells.length : Int)).toNat).map
          (fun (j : Nat) => newCell (j : Int)) ∧
    (ForEachCell (some sh) r cvf s option).calls.map (fun k => k.ci) =
      List.range' 0 (r.cells.length + (sh.MaxCol - (r.cells.length : Int)).toNat) := by
  obtain ⟨h1, h2, h3, h4⟩ :=
    rangeCells_default (applyOptions option) hskip cvf hok r.cells 0 r s (by simp)
  have hlen : (rangeCells (applyOptions option) cvf r.cells 0 r s).row.cells.length =
      r.cells.length := by
    rw [h1]; simp [filled_length]
  have hcap : (rangeCells (applyOptions option) cvf r.cells 0 r s).row.cellsCap =
      r.cellsCap := by
    rw [h1]
  unfold ForEachCell
  simp only [hskip]
  rw [andThen_ok _ _ h2]
  simp only [hlen, Bool.false_eq_true, if_false, List.map_append, h3, h4]
  generalize hn : (sh.MaxCol - (r.cells.length : Int)).toNat = n
  have hpad : (padCells cvf n r.cells.length
        (rangeCells (applyOptions option) cvf r.cells 0 r s).row
        (rangeCells (applyOptions option) cvf r.cells 0 r s).state).exit = Exit.ok ∧
      (padCells cvf n r.cells.length
        (rangeCells (applyOptions option) cvf r.cells 0 r s).row
        (rangeCells (applyOptions option) cvf r.cells 0 r s).state).calls.map (fun k => k.cell) =
        (List.range' r.cells.length n).map (fun (j : Nat) => newCell (j : Int)) ∧
      (padCells cvf n r.cells.length
        (rangeCells (applyOptions option) cvf r.cells 0 r s).row
        (rangeCells (applyOptions option) cvf r.cells 0 r s).state).calls.map (fun k => k.ci) =
        List.range' r.cells.length n := by
    rcases hroom with hm | hc
    · have : n = 0 := by omega
      subst this
      simp [padCells, Visit.skip]
    · apply padCells_ok cvf hok n
      · omega
      · omega
      · intro j h1 h2; omega
  obtain ⟨p1, p2, p3⟩ := hpad
  refine ⟨p1, by rw [p2], ?_⟩
  rw [p3]
  have := List.range'_append 0 r.cells.length n 1
  rw [Nat.add_comm r.cells.length n]
  simpa using this

/-! ### The visitor's log records what the visitor returned -/

theorem Logs_skip {σ ε : Type} (cvf : σ → Cell → σ × Option ε) (r : Row) (s : σ) :
    (Visit.skip r s : Visit σ ε).Logs cvf := by
  intro k hk
  simp [Visit.skip] at hk

theorem Logs_abort {σ ε : Type} (cvf : σ → Cell → σ × Option ε) (r : Row) (s : σ) :
    (Visit.abort r s : Visit σ ε).Logs cvf := by
  intro k hk
  simp [Visit.abort] at hk

theorem Logs_invoke {σ ε : Type} (cvf : σ → Cell → σ × Option ε) (ci : Nat) (c : Cell)
    (r : Row) (s : σ) : (invoke cvf ci c r s).Logs cvf := by
  intro k hk
  simp only [invoke, List.mem_singleton] at hk
  subst hk
  exact ⟨s, rfl⟩

theorem Logs_andThen {σ ε : Type} (cvf : σ → Cell → σ × Option ε) (v : Visit σ ε)
    (k : Row → σ → Visit σ ε) (hv : v.Logs cvf) (hk : ∀ r s, (k r s).Logs cvf) :
    (v.andThen k).Logs cvf := by
  unfold Visit.andThen
  cases hx : v.exit with
  | error e => simpa using hv
  | panicked => simpa using hv
  | ok =>
    intro c hc
    simp only at hc
    rcases List.mem_append.mp hc with h | h
    · exact hv c h
    · exact hk v.row v.state c h

theorem Logs_fn {σ ε : Type} (flags : cellVisitorFlags) (cvf : σ → Cell → σ × Option ε)
    (r : Row) (s : σ) (ci : Nat) (c : Option Cell) : (fn flags cvf r s ci c).Logs cvf := by
  unfold fn
  split
  · split
    · exact Logs_skip cvf r s
    · split
      · exact Logs_abort cvf r s
      · split
        · exact Logs_skip cvf _ s
        · exact Logs_invoke cvf ci _ _ s
  · split
    · exact Logs_skip cvf r s
    · exact Logs_invoke cvf ci _ r s

theorem Logs_rangeCells {σ ε : Type} (flags : cellVisitorFlags)
    (cvf : σ → Cell → σ × Option ε) (cells : List (Option Cell)) :
    ∀ (ci : Nat) (r : Row) (s : σ), (rangeCells flags cvf cells ci r s).Logs cvf := by
  induction cells with
  | nil => intro ci r s; exact Logs_skip cvf r s
  | cons c rest ih =>
    intro ci r s
    unfold rangeCells
    exact Logs_andThen cvf _ _ (Logs_fn flags cvf r s ci c) (ih (ci + 1))

theorem Logs_padCells {σ ε : Type} (cvf : σ → Cell → σ × Option ε) (n : Nat) :
    ∀ (ci : Nat) (r : Row) (s : σ), (padCells cvf n ci r s).Logs cvf := by
  induction n with
  | zero => intro ci r s; exact Logs_skip cvf r s
  | succ n ih =>
    intro ci r s
    unfold padCells
    split
    · exact Logs_abort cvf r s
    · exact Logs_andThen cvf _ _ (Logs_invoke cvf ci _ _ s) (ih (ci + 1))

theorem Logs_ForEachCell {σ ε : Type} (sheet : Option Sheet) (r : Row)
    (cvf : σ → Cell → σ × Option ε) (s : σ) (option : List CellVisitorOption) :
    (ForEachCell sheet r cvf s option).Logs cvf := by
  unfold ForEachCell
  apply Logs_andThen cvf _ _ (Logs_rangeCells _ cvf r.cells 0 r s)
  intro r1 s1
  simp only
  split
  · exact Logs_skip cvf r1 s1
  · split
    · exact Logs_abort cvf r1 s1
    · exact Logs_padCells cvf _ _ r1 s1

/-- A traversal with a visitor that never fails does not end with an error. -/
theorem ForEachCell_no_error {σ ε : Type} (sheet : Option Sheet) (r : Row)
    (cvf : σ → Cell → σ × Option ε) (s : σ) (option : List CellVisitorOption)
    (hok : ∀ s c, (cvf s c).2 = none) (e : ε) :
    (ForEachCell sheet r cvf s option).exit ≠ Exit.error e := by
  intro he
  rcases Sound_ForEachCell sheet r cvf s option with ⟨_, hne⟩ | ⟨pre, last, e1, hc, _, hl, _⟩
  · exact hne e he
  · have hmem : last ∈ (ForEachCell sheet r cvf s option).calls := by
      rw [hc]; simp
    obtain ⟨s1, hs1⟩ := Logs_ForEachCell sheet r cvf s option last hmem
    rw [hs1, hok s1 last.cell] at hl
    cases hl

/-! ## The claims -/

/-- C1, evaluated where it fails: five `AddCell` calls leave a slice of length 5 and
capacity 8, a well-formed Row, and `GetCell(5)` on it panics.  `growCellsSlice(6)`
sees 6 below the capacity and leaves the slice at length 5, so the store into slot
5 is out of range. -/
theorem GetCell_panics_within_capacity :
    fiveCells.cells.length = 5 ∧ fiveCells.cellsCap = 8 ∧ fiveCells.WF ∧
      GetCell fiveCells 5 = none := by
  decide

/-- C2, evaluated where it fails: `GetCell(0)` on the empty Row materializes one
cell and leaves `GetCellCount()` at 0. -/
theorem GetCell_keeps_cellCount :
    (GetCell emptyRow 0).map (fun p => (GetCellCount p.2, materialized p.2)) =
      some (0, 1) := by
  decide

/-- C3 as stated fails, at three rows.  After `GetCell(2)` the Row has one
materialized cell and cell count 0, yet with `MaxCol = 2` the default traversal
invokes the visitor three times.  After `GetCell(0)` and `AddCell` the Row has two
materialized cells and with `MaxCol = 2` the visited columns are 0, 0.  After five
`AddCell` calls and with `MaxCol = 6` the traversal panics. -/
theorem ForEachCell_default_not_MaxCol_calls :
    (materialized afterGetCell2 = 1 ∧ GetCellCount afterGetCell2 = 0 ∧
      (ForEachCell (some ⟨2, 0⟩) afterGetCell2 okVisitor () []).calls.length = 3) ∧
    (materialized getZeroThenAdd = 2 ∧
      (ForEachCell (some ⟨2, 0⟩) getZeroThenAdd okVisitor () []).calls.map
        (fun k => k.cell.num) = [0, 0]) ∧
    (materialized fiveCells = 5 ∧ GetCellCount fiveCells = 5 ∧
      (ForEachCell (some ⟨6, 0⟩) fiveCells okVisitor () []).exit = Exit.panicked) := by
  decide

/-- C3, amended: for a Row whose backing sequence consists of its `k` materialized
cells only (no absent slot), each in the slot of its column index, and a Sheet with
`MaxCol = m ≥ k` such that `m = k` or the capacity is at most `k + 1`, `ForEachCell`
with no options and a visitor that never fails returns nil after exactly `m`
invocations; the `i`-th visited cell has column index `i`, is the Row's own cell
when `i < k`, and has the empty value when `i ≥ k`. -/
theorem ForEachCell_dense_padding {σ ε : Type} (r : Row) (sh : Sheet)
    (cvf : σ → Cell → σ × Option ε) (s : σ)
    (hfull : materialized r = r.cells.length)
    (hnum : ∀ (i : Nat) (c : Cell), r.cells[i]? = some (some c) → c.num = (i : Int))
    (hm : (materialized r : Int) ≤ sh.MaxCol)
    (hroom : sh.MaxCol = (materialized r : Int) ∨ r.cellsCap ≤ materialized r + 1)
    (hok : ∀ s c, (cvf s c).2 = none) :
    (ForEachCell (some sh) r cvf s []).exit = Exit.ok ∧
    ((ForEachCell (some sh) r cvf s []).calls.length : Int) = sh.MaxCol ∧
    (∀ (i : Nat) (k : Call ε), (ForEachCell (some sh) r cvf s []).calls[i]? = some k →
      k.ci = i ∧ k.cell.num = (i : Int) ∧ (materialized r ≤ i → k.cell.Value = "")) ∧
    (∀ (i : Nat) (c : Cell), r.cells[i]? = some (some c) →
      ((ForEachCell (some sh) r cvf s []).calls[i]?).map (fun k => k.cell) = some c) := by
  have hall : ∀ o ∈ r.cells, Option.isSome o = true := by
    exact List.filter_length_eq_length.mp hfull
  rw [hfull] at hm hroom
  rw [hfull]
  obtain ⟨h1, h2, h3⟩ := ForEachCell_default sh r cvf s [] rfl hok
    (by rcases hroom with h | h
        · left; omega
        · right; exact h)
  generalize ForEachCell (some sh) r cvf s [] = v at h1 h2 h3
  generalize hn : (sh.MaxCol - (r.cells.length : Int)).toNat = n at h2 h3
  have hlen : v.calls.length = r.cells.length + n := by
    have := congrArg List.length h3
    simpa using this
  have hcell : ∀ (i : Nat) (k : Call ε), v.calls[i]? = some k →
      (filled 0 r.cells ++ (List.range' r.cells.length n).map
        (fun (j : Nat) => newCell (j : Int)))[i]? = some k.cell := by
    intro i k hk
    rw [← h2, List.getElem?_map, hk]
    rfl
  have hci : ∀ (i : Nat) (k : Call ε), v.calls[i]? = some k → k.ci = i := by
    intro i k hk
    have : (v.calls.map (fun k => k.ci))[i]? = some k.ci := by
      rw [List.getElem?_map, hk]; rfl
    rw [h3] at this
    have hi : i < r.cells.length + n := by
      rw [← hlen]; exact lt_of_slot _ _ _ hk
    rw [List.getElem?_range' _ _ hi] at this
    simp at this
    omega
  refine ⟨h1, by rw [hlen]; omega, ?_, ?_⟩
  · intro i k hk
    have hc := hcell i k hk
    refine ⟨hci i k hk, ?_⟩
    rcases Nat.lt_or_ge i r.cells.length with hi | hi
    · rw [List.getElem?_append_left (by rw [filled_length]; exact hi), filled_getElem?,
        List.getElem?_eq_getElem hi] at hc
      have hsome := hall _ (List.getElem_mem hi)
      cases ho : r.cells[i] with
      | none => rw [ho] at hsome; cases hsome
      | some c =>
        rw [ho] at hc
        simp only [Option.map_some', Option.getD_some, Option.some.injEq] at hc
        rw [← hc]
        have := hnum i c (by rw [List.getElem?_eq_getElem hi, ho])
        exact ⟨this, fun h => absurd hi (by omega)⟩
    · rw [List.getElem?_append_right (by rw [filled_length]; exact hi), filled_length,
        List.getElem?_map] at hc
      have hi2 : i - r.cells.length < n := by
        have := lt_of_slot _ _ _ hk
        omega
      rw [List.getElem?_range' _ _ hi2] at hc
      simp only [Option.map_some', Option.some.injEq] at hc
      rw [← hc]
      refine ⟨?_, fun _ => rfl⟩
      simp only [newCell]
      omega
  · intro i c hs
    have hi := lt_of_slot _ _ _ hs
    have hi2 : i < v.calls.length := by omega
    have hk := List.getElem?_eq_getElem hi2
    have hc := hcell i _ hk
    rw [List.getElem?_append_left (by rw [filled_length]; exact hi), filled_getElem?, hs] at hc
    rw [hk]
    simpa using hc.symm

/-- C3, amended, at the Row of three appended cells a, b, c and `MaxCol = 5`. -/
theorem ForEachCell_dense_padding_witness :
    (ForEachCell (some ⟨5, 0⟩) abcRow okVisitor () []).exit = Exit.ok ∧
    ((ForEachCell (some ⟨5, 0⟩) abcRow okVisitor () []).calls.length : Int) = 5 ∧
    (∀ (i : Nat) (k : Call String), (ForEachCell (some ⟨5, 0⟩) abcRow okVisitor () []).calls[i]? = some k →
      k.ci = i ∧ k.cell.num = (i : Int) ∧ (materialized abcRow ≤ i → k.cell.Value = "")) ∧
    (∀ (i : Nat) (c : Cell), abcRow.cells[i]? = some (some c) →
      ((ForEachCell (some ⟨5, 0⟩) abcRow okVisitor () []).calls[i]?).map (fun k => k.cell) =
        some c) :=
  ForEachCell_dense_padding abcRow ⟨5, 0⟩ okVisitor () (by decide)
    (by
      intro i c h
      have hl := lt_of_slot _ _ _ h
      have h3 : abcRow.cells.length = 3 := by decide
      rw [h3] at hl
      have hcells : abcRow.cells = [some ⟨0, "a"⟩, some ⟨1, "b"⟩, some ⟨2, "c"⟩] := by decide
      rw [hcells] at h
      rcases i with _ | _ | _ | i
      · simp at h; subst h; rfl
      · simp at h; subst h; rfl
      · simp at h; subst h; rfl
      · omega)
    (by decide) (Or.inr (by decide)) (fun _ _ => rfl)

/-- C4, evaluated where it holds and where it fails.  Three appended cells a, b, c
and `MaxCol = 5` give a, b, c and two empty strings, and a, b, c under
`SkipEmptyCells`.  Five appended cells a to e leave a slice of length 5 and
capacity 8, and with `MaxCol = 6` the default traversal panics after the five
cells, in `GetCell(5)`: the panic of C1. -/
theorem ForEachCell_appended_values :
    ((ForEachCell (some ⟨5, 0⟩) abcRow okVisitor () []).exit = Exit.ok ∧
      (ForEachCell (some ⟨5, 0⟩) abcRow okVisitor () []).calls.map (fun k => k.cell.Value) =
        ["a", "b", "c", "", ""] ∧
      (ForEachCell (some ⟨5, 0⟩) abcRow okVisitor () [SkipEmptyCells]).calls.map
        (fun k => k.cell.Value) = ["a", "b", "c"]) ∧
    (abcdeRow.cells.length = 5 ∧ abcdeRow.cellsCap = 8 ∧
      (ForEachCell (some ⟨6, 0⟩) abcdeRow okVisitor () []).exit = Exit.panicked ∧
      (ForEachCell (some ⟨6, 0⟩) abcdeRow okVisitor () []).calls.map (fun k => k.cell.Value) =
        ["a", "b", "c", "d", "e"]) := by
  decide

/-- C5: for every Row and every Sheet (or none), `ForEachCell` with `SkipEmptyCells`
and a visitor that never fails returns nil; every invocation is on a backing slot
below the backing length that holds a Cell with a non-empty value, every such slot
is visited, and the slot indices of the invocations are strictly increasing, so
each is visited once. -/
theorem ForEachCell_SkipEmptyCells {σ ε : Type} (sheet : Option Sheet) (r : Row)
    (cvf : σ → Cell → σ × Option ε) (s : σ) (hok : ∀ s c, (cvf s c).2 = none) :
    (ForEachCell sheet r cvf s [SkipEmptyCells]).exit = Exit.ok ∧
    (∀ k ∈ (ForEachCell sheet r cvf s [SkipEmptyCells]).calls,
      k.ci < r.cells.length ∧ r.cells[k.ci]? = some (some k.cell) ∧ k.cell.Value ≠ "") ∧
    (∀ (i : Nat) (c : Cell), r.cells[i]? = some (some c) → c.Value ≠ "" →
      ∃ k ∈ (ForEachCell sheet r cvf s [SkipEmptyCells]).calls, k.ci = i ∧ k.cell = c) ∧
    ((ForEachCell sheet r cvf s [SkipEmptyCells]).calls.map (fun k => k.ci)).Pairwise
      (fun a b => a < b) := by
  obtain ⟨_, h2, h3⟩ := ForEachCell_skip sheet r cvf s [SkipEmptyCells] rfl hok
  generalize ForEachCell sheet r cvf s [SkipEmptyCells] = v at h2 h3
  refine ⟨h2, ?_, ?_, ?_⟩
  · intro k hk
    have hm : (k.ci, k.cell) ∈ populated 0 r.cells := by
      rw [← h3]
      exact List.mem_map.mpr ⟨k, hk, rfl⟩
    obtain ⟨j, hj, hs, hv⟩ := (populated_mem r.cells 0 k.ci k.cell).mp hm
    have hj2 : j = k.ci := by omega
    subst hj2
    exact ⟨lt_of_slot _ _ _ hs, hs, hv⟩
  · intro i c hs hv
    have hm : (i, c) ∈ populated 0 r.cells :=
      (populated_mem r.cells 0 i c).mpr ⟨i, by omega, hs, hv⟩
    rw [← h3] at hm
    obtain ⟨k, hk, he⟩ := List.mem_map.mp hm
    simp only [Prod.mk.injEq] at he
    exact ⟨k, hk, he.1, he.2⟩
  · have : v.calls.map (fun k => k.ci) =
        (v.calls.map (fun k => (k.ci, k.cell))).map Prod.fst := by
      simp
    rw [this, h3]
    exact populated_sorted r.cells 0

/-- C5 at the Row with cells at indices 0 and 2, index 1 absent, and `MaxCol = 5`:
the slots visited are 0 and 2. -/
theorem ForEachCell_SkipEmptyCells_witness :
    ((ForEachCell (some ⟨5, 0⟩) sparseRow okVisitor () [SkipEmptyCells]).exit = Exit.ok ∧
    (∀ k ∈ (ForEachCell (some ⟨5, 0⟩) sparseRow okVisitor () [SkipEmptyCells]).calls,
      k.ci < sparseRow.cells.length ∧ sparseRow.cells[k.ci]? = some (some k.cell) ∧
        k.cell.Value ≠ "") ∧
    (∀ (i : Nat) (c : Cell), sparseRow.cells[i]? = some (some c) → c.Value ≠ "" →
      ∃ k ∈ (ForEachCell (some ⟨5, 0⟩) sparseRow okVisitor () [SkipEmptyCells]).calls,
        k.ci = i ∧ k.cell = c) ∧
    ((ForEachCell (some ⟨5, 0⟩) sparseRow okVisitor () [SkipEmptyCells]).calls.map
      (fun k => k.ci)).Pairwise (fun a b => a < b)) ∧
    sparseRow.cells = [some ⟨0, "x"⟩, none, some ⟨2, "z"⟩] ∧
    (ForEachCell (some ⟨5, 0⟩) sparseRow okVisitor () [SkipEmptyCells]).calls.map
      (fun k => k.ci) = [0, 2] :=
  ⟨ForEachCell_SkipEmptyCells (some ⟨5, 0⟩) sparseRow okVisitor () (fun _ _ => rfl),
    by decide, by decide⟩

/-- C6 as stated fails: with a visitor that never fails and no options,
`ForEachCell` does not return on a Row without a Sheet, and does not return on the
Row of five appended cells with `MaxCol = 6`; it panics. -/
theorem ForEachCell_panics_under_ok_visitor :
    (∀ s c, (okVisitor s c).2 = none) ∧
    (ForEachCell none emptyRow okVisitor () []).exit = Exit.panicked ∧
    (ForEachCell (some ⟨6, 0⟩) fiveCells okVisitor () []).exit = Exit.panicked :=
  ⟨fun _ _ => rfl, by decide, by decide⟩

/-- C6, amended: for every Row, visitor and option list, an invocation of the
visitor that returns an error is the last one, and `ForEachCell` returns exactly
that error; if the visitor never fails `ForEachCell` returns no error, and it
returns nil whenever `SkipEmptyCells` is in force, or the Row has a Sheet and there
is no padding to do or the backing slice has at most one spare slot. -/
theorem ForEachCell_error_short_circuit {σ ε : Type} (sheet : Option Sheet) (r : Row)
    (cvf : σ → Cell → σ × Option ε) (s : σ) (option : List CellVisitorOption) :
    (∀ (n : Nat) (k : Call ε) (e : ε),
      (ForEachCell sheet r cvf s option).calls[n]? = some k → k.ret = some e →
      (ForEachCell sheet r cvf s option).exit = Exit.error e ∧
        (ForEachCell sheet r cvf s option).calls.length = n + 1) ∧
    ((∀ s c, (cvf s c).2 = none) →
      (∀ e, (ForEachCell sheet r cvf s option).exit ≠ Exit.error e) ∧
      ((applyOptions option).skipEmptyCells = true ∨
        (∃ sh, sheet = some sh ∧
          (sh.MaxCol ≤ (r.cells.length : Int) ∨ r.cellsCap ≤ r.cells.length + 1)) →
        (ForEachCell sheet r cvf s option).exit = Exit.ok)) := by
  refine ⟨fun n k e hk he =>
    Sound_error _ (Sound_ForEachCell sheet r cvf s option) n k e hk he, ?_⟩
  intro hok
  have hskipok : (applyOptions option).skipEmptyCells = true →
      (ForEachCell sheet r cvf s option).exit = Exit.ok :=
    fun h => (ForEachCell_skip sheet r cvf s option h hok).2.1
  refine ⟨fun e => ForEachCell_no_error sheet r cvf s option hok e, ?_⟩
  rintro (h | ⟨sh, hsh, hroom⟩)
  · exact hskipok h
  · cases hf : (applyOptions option).skipEmptyCells with
    | true => exact hskipok hf
    | false =>
      rw [hsh]
      exact (ForEachCell_default sh r cvf s option hf hok hroom).1

/-- C6, amended, at the Row of three appended cells with `MaxCol = 5` (five cells to
visit) and a visitor that fails on its second invocation: the traversal returns
that error after exactly two invocations. -/
theorem ForEachCell_error_short_circuit_witness :
    (ForEachCell (some ⟨5, 0⟩) abcRow (failAt 2 "boom") 0 []).calls[1]? =
      some ⟨1, ⟨1, "b"⟩, some "boom"⟩ ∧
    (ForEachCell (some ⟨5, 0⟩) abcRow (failAt 2 "boom") 0 []).exit = Exit.error "boom" ∧
    (ForEachCell (some ⟨5, 0⟩) abcRow (failAt 2 "boom") 0 []).calls.length = 1 + 1 ∧
    (ForEachCell (some ⟨5, 0⟩) abcRow okVisitor () []).exit = Exit.ok :=
  ⟨by decide,
    ((ForEachCell_error_short_circuit (some ⟨5, 0⟩) abcRow (failAt 2 "boom") 0 []).1 1
      ⟨1, ⟨1, "b"⟩, some "boom"⟩ "boom" (by decide) rfl).1,
    ((ForEachCell_error_short_circuit (some ⟨5, 0⟩) abcRow (failAt 2 "boom") 0 []).1 1
      ⟨1, ⟨1, "b"⟩, some "boom"⟩ "boom" (by decide) rfl).2,
    ((ForEachCell_error_short_circuit (some ⟨5, 0⟩) abcRow okVisitor () []).2
      (fun _ _ => rfl)).2 (Or.inr ⟨⟨5, 0⟩, rfl, Or.inr (by decide)⟩)⟩

/-- C7, evaluated where it fails: after `GetCell(1)` and `AddCell` the slots hold
nothing, the cell of column 1 and a cell of column 0, and the default traversal
with `MaxCol = 3` returns nil after visiting the columns 0, 1, 0. -/
theorem ForEachCell_visits_column_twice :
    getThenAdd.cells = [none, some ⟨1, ""⟩, some ⟨0, ""⟩] ∧
    (ForEachCell (some ⟨3, 0⟩) getThenAdd okVisitor () []).exit = Exit.ok ∧
    (ForEachCell (some ⟨3, 0⟩) getThenAdd okVisitor () []).calls.map
      (fun k => k.cell.num) = [0, 1, 0] := by
  decide

/-- C8, evaluated where it fails: after `GetCell(1)` the cell count is 0 and the
slice has length 2; `AddCell` returns a Cell of column index 0, raises the count to
1, and stores the Cell in slot 2, while slot 0 stays absent. -/
theorem AddCell_after_GetCell :
    GetCellCount afterGetCell1 = 0 ∧ afterGetCell1.cells.length = 2 ∧
    (AddCell goGrow afterGetCell1).1.num = 0 ∧
    GetCellCount (AddCell goGrow afterGetCell1).2 = 1 ∧
    (AddCell goGrow afterGetCell1).2.cells[0]? = some none ∧
    (AddCell goGrow afterGetCell1).2.cells[2]? = some (some (AddCell goGrow afterGetCell1).1) := by
  decide

/-- C9: when `GetCell(colIdx)` completes, returning the Cell `c` and leaving the Row
`r1`, the next `GetCell(colIdx)` completes too, returns the same Cell `c` and
leaves the Row `r1`, whole, as it is. -/
theorem GetCell_twice (r r1 : Row) (colIdx : Int) (c : Cell)
    (h : GetCell r colIdx = some (c, r1)) : GetCell r1 colIdx = some (c, r1) := by
  obtain ⟨n, rfl, hs⟩ := GetCell_stored r r1 colIdx c h
  exact GetCell_some r1 n c hs

/-- C9 at the empty Row and column 3: the first call grows the slice to three
absent slots and the new Cell, the second returns that Cell and changes nothing. -/
theorem GetCell_twice_witness :
    GetCell emptyRow 3 =
      some (newCell 3, { emptyRow with cells := [none, none, none, some (newCell 3)],
                                       cellsCap := 4 }) ∧
    GetCell { emptyRow with cells := [none, none, none, some (newCell 3)], cellsCap := 4 } 3 =
      some (newCell 3, { emptyRow with cells := [none, none, none, some (newCell 3)],
                                       cellsCap := 4 }) :=
  ⟨by decide, GetCell_twice emptyRow _ 3 (newCell 3) (by decide)⟩

/-- C10: when `GetCell(i)` completes, every slot `j` that held a Cell before the call
holds the same Cell, with the same value, after it, whether the call resized the
slice or not; and so it does after any further run of `GetCell` calls that
complete. -/
theorem GetCell_preserves_cells (r r1 r2 : Row) (i : Int) (c1 : Cell) (rest : List Int)
    (j : Nat) (c : Cell) (h1 : GetCell r i = some (c1, r1))
    (h2 : getCells r1 rest = some r2) (hj : r.cells[j]? = some (some c)) :
    r1.cells[j]? = some (some c) ∧ r2.cells[j]? = some (some c) := by
  have hr1 := GetCell_frame r r1 i c1 j c h1 hj
  refine ⟨hr1, ?_⟩
  clear h1 hj
  induction rest generalizing r1 with
  | nil =>
    simp only [getCells, Option.some.injEq] at h2
    rw [← h2]; exact hr1
  | cons a rest ih =>
    simp only [getCells] at h2
    cases hg : GetCell r1 a with
    | none => rw [hg] at h2; cases h2
    | some p =>
      obtain ⟨c2, r3⟩ := p
      rw [hg] at h2
      exact ih r3 h2 (GetCell_frame r1 r3 a c2 j c hg hr1)

/-- C10 at the Row with the cells x and z in slots 0 and 2: `GetCell(1)` fills the
absent slot, `GetCell(3)` and `GetCell(9)` resize the slice, and slot 2 still holds
the cell z. -/
theorem GetCell_preserves_cells_witness :
    sparseRow.cells[2]? = some (some ⟨2, "z"⟩) ∧
    (getCells sparseRow [1, 3, 9]).map (fun r => r.cells.length) = some 12 ∧
    (((getCells sparseRow [1]).getD emptyRow).cells[2]? = some (some ⟨2, "z"⟩) ∧
      ((getCells sparseRow [1, 3, 9]).getD emptyRow).cells[2]? = some (some ⟨2, "z"⟩)) :=
  ⟨by decide, by decide,
    GetCell_preserves_cells sparseRow _ _ 1 (newCell 1) [3, 9] 2 ⟨2, "z"⟩
      (by decide) (by decide) (by decide)⟩

/-! ### The Row a traversal leaves behind -/

theorem invoke_exit_ne_panicked {σ ε : Type} (cvf : σ → Cell → σ × Option ε) (ci : Nat)
    (c : Cell) (r : Row) (s : σ) : (invoke cvf ci c r s).exit ≠ Exit.panicked := by
  unfold invoke
  cases (cvf s c).2 <;> simp

theorem fn_skip_row {σ ε : Type} (flags : cellVisitorFlags)
    (hskip : flags.skipEmptyCells = true) (cvf : σ → Cell → σ × Option ε) (r : Row) (s : σ)
    (ci : Nat) (c : Option Cell) :
    (fn flags cvf r s ci c).row = r ∧ (fn flags cvf r s ci c).exit ≠ Exit.panicked := by
  cases c with
  | none => simp [fn, hskip, Visit.skip]
  | some c1 =>
    by_cases hv : c1.Value = ""
    · simp [fn, hskip, hv, Visit.skip]
    · have hfn : fn flags cvf r s ci (some c1) = invoke cvf ci c1 r s := by simp [fn, hv]
      rw [hfn]
      exact ⟨rfl, invoke_exit_ne_panicked cvf ci c1 r s⟩

/-- Under `SkipEmptyCells` the range loop leaves the Row as it is and does not
panic, whatever the visitor returns. -/
theorem rangeCells_skip_row {σ ε : Type} (flags : cellVisitorFlags)
    (hskip : flags.skipEmptyCells = true) (cvf : σ → Cell → σ × Option ε)
    (cells : List (Option Cell)) :
    ∀ (ci : Nat) (r : Row) (s : σ),
      (rangeCells flags cvf cells ci r s).row = r ∧
      (rangeCells flags cvf cells ci r s).exit ≠ Exit.panicked := by
  induction cells with
  | nil => intro ci r s; simp [rangeCells, Visit.skip]
  | cons c rest ih =>
    intro ci r s
    obtain ⟨hr, hp⟩ := fn_skip_row flags hskip cvf r s ci c
    unfold rangeCells Visit.andThen
    cases hx : (fn flags cvf r s ci c).exit with
    | ok =>
      obtain ⟨h1, h2⟩ := ih (ci + 1) (fn flags cvf r s ci c).row (fn flags cvf r s ci c).state
      simp only
      exact ⟨by rw [h1, hr], h2⟩
    | error e => simp only; exact ⟨hr, by rw [hx]; simp⟩
    | panicked => exact absurd hx hp

theorem ForEachCell_skip_row {σ ε : Type} (sheet : Option Sheet) (r : Row)
    (cvf : σ → Cell → σ × Option ε) (s : σ) (option : List CellVisitorOption)
    (hskip : (applyOptions option).skipEmptyCells = true) :
    (ForEachCell sheet r cvf s option).row = r ∧
    (ForEachCell sheet r cvf s option).exit ≠ Exit.panicked := by
  obtain ⟨hr, hp⟩ := rangeCells_skip_row (applyOptions option) hskip cvf r.cells 0 r s
  unfold ForEachCell Visit.andThen
  simp only [hskip, if_true]
  cases hx : (rangeCells (applyOptions option) cvf r.cells 0 r s).exit with
  | ok => simp only [Visit.skip]; exact ⟨hr, by simp⟩
  | error e => simp only; exact ⟨hr, by rw [hx]; simp⟩
  | panicked => exact absurd hx hp

/-- The padding loop leaves every Cell of the Row in its slot, whatever the visitor
returns. -/
theorem padCells_frame {σ ε : Type} (cvf : σ → Cell → σ × Option ε) (n : Nat) :
    ∀ (ci : Nat) (r : Row) (s : σ) (j : Nat) (c : Cell), r.cells[j]? = some (some c) →
      (padCells cvf n ci r s).row.cells[j]? = some (some c) := by
  induction n with
  | zero => intro ci r s j c h; simpa [padCells, Visit.skip] using h
  | succ n ih =>
    intro ci r s j c h
    unfold padCells
    cases hg : GetCell r (ci : Int) with
    | none => simpa [Visit.abort] using h
    | some p =>
      obtain ⟨c1, r1⟩ := p
      have h1 := GetCell_frame r r1 ci c1 j c hg h
      simp only
      unfold Visit.andThen
      cases hx : (invoke cvf ci c1 r1 s).exit with
      | ok => simp only; exact ih (ci + 1) _ _ j c h1
      | error e => simp only; exact h1
      | panicked => simp only; exact h1

/-- One step of the padding loop: from a slice with at most one spare slot whose
slots from `ci` on are absent, `GetCell(ci)` completes with the new Cell, stores
it in slot `ci`, and leaves a slice of the same kind for `ci + 1`. -/
theorem GetCell_pad_step (r : Row) (ci : Nat) (hci : ci ≤ r.cells.length)
    (hcap : r.cellsCap ≤ r.cells.length + 1)
    (habs : ∀ j, ci ≤ j → j < r.cells.length → r.cells[j]? = some none) :
    ∃ r1, GetCell r (ci : Int) = some (newCell ci, r1) ∧
      r1.cells[ci]? = some (some (newCell ci)) ∧
      ci + 1 ≤ r1.cells.length ∧ r1.cellsCap ≤ r1.cells.length + 1 ∧
      (∀ j, ci + 1 ≤ j → j < r1.cells.length → r1.cells[j]? = some none) := by
  rcases GetCell_cases r ci with ⟨c0, hs, _⟩ | ⟨hs, hg⟩ | ⟨hl, hc, hg⟩ | ⟨hl, hc, _⟩
  · have := habs ci (Nat.le_refl _) (lt_of_slot _ _ _ hs)
    rw [this] at hs; cases hs
  · have hlt := lt_of_slot _ _ _ hs
    refine ⟨_, hg, ?_, ?_, ?_, ?_⟩
    · simp [List.getElem?_set, hlt]
    · simp; omega
    · simpa using hcap
    · intro j hj hjl
      have hne : ci ≠ j := by omega
      simp only [List.getElem?_set, hne, if_false]
      exact habs j (by omega) (by simpa using hjl)
  · have hlen : (makeCopy (max (2 * r.cellsCap) (ci + 1)) r.cells).length =
        max (2 * r.cellsCap) (ci + 1) := makeCopy_length _ _ (by omega)
    refine ⟨_, hg, ?_, ?_, ?_, ?_⟩
    · have : ci < (makeCopy (max (2 * r.cellsCap) (ci + 1)) r.cells).length := by
        rw [hlen]; omega
      simp [List.getElem?_set, this]
    · simp [hlen]
    · simp [hlen]
    · intro j hj hjl
      have hne : ci ≠ j := by omega
      simp only [List.length_set, hlen] at hjl
      simp only [List.getElem?_set, hne, if_false]
      rw [makeCopy_eq _ _ (by omega), List.getElem?_append_right (by omega)]
      exact List.getElem?_replicate_of_lt (by omega)
  · omega

/-- Under the conditions of `padCells_ok` the padding loop leaves the new Cell of
column `j` in slot `j`, for every column `j` it pads. -/
theorem padCells_filled {σ ε : Type} (cvf : σ → Cell → σ × Option ε)
    (hok : ∀ s c, (cvf s c).2 = none) (n : Nat) :
    ∀ (ci : Nat) (r : Row) (s : σ), ci ≤ r.cells.length → r.cellsCap ≤ r.cells.length + 1 →
      (∀ j, ci ≤ j → j < r.cells.length → r.cells[j]? = some none) →
      ∀ j, ci ≤ j → j < ci + n →
        (padCells cvf n ci r s).row.cells[j]? = some (some (newCell (j : Int))) := by
  induction n with
  | zero => intro ci r s _ _ _ j h1 h2; omega
  | succ n ih =>
    intro ci r s hci hcap habs j h1 h2
    obtain ⟨r1, hg, hst, hci1, hcap1, habs1⟩ := GetCell_pad_step r ci hci hcap habs
    unfold padCells
    rw [hg]
    simp only
    rw [invoke_ok _ _ _ _ _ (hok s _), andThen_ok _ _ rfl]
    simp only
    rcases Nat.eq_or_lt_of_le h1 with he | hlt
    · subst he
      exact padCells_frame cvf n (ci + 1) r1 _ ci _ hst
    · exact ih (ci + 1) r1 _ hci1 hcap1 habs1 j (by omega) (by omega)

theorem filled_map_some (xs : List Cell) : ∀ ci : Nat, filled ci (xs.map some) = xs := by
  induction xs with
  | nil => intro ci; rfl
  | cons x rest ih => intro ci; simp [filled, ih]

/-- Without `SkipEmptyCells` and with a Sheet, `ForEachCell` is the range loop
followed by the padding loop. -/
theorem ForEachCell_default_eq {σ ε : Type} (sh : Sheet) (r : Row)
    (cvf : σ → Cell → σ × Option ε) (s : σ) (option : List CellVisitorOption)
    (hskip : (applyOptions option).skipEmptyCells = false) :
    ForEachCell (some sh) r cvf s option =
      (rangeCells (applyOptions option) cvf r.cells 0 r s).andThen fun r1 s1 =>
        padCells cvf (sh.MaxCol - (r1.cells.length : Int)).toNat r1.cells.length r1 s1 := by
  unfold ForEachCell
  simp [hskip]

/-- After a default traversal with a visitor that never fails, every Cell visited
is the Cell held by the slot of its position in the log. -/
theorem ForEachCell_default_row {σ ε : Type} (sh : Sheet) (r : Row)
    (cvf : σ → Cell → σ × Option ε) (s : σ) (option : List CellVisitorOption)
    (hskip : (applyOptions option).skipEmptyCells = false)
    (hok : ∀ s c, (cvf s c).2 = none)
    (hroom : sh.MaxCol ≤ (r.cells.length : Int) ∨ r.cellsCap ≤ r.cells.length + 1) :
    ∀ (j : Nat) (k : Call ε), (ForEachCell (some sh) r cvf s option).calls[j]? = some k →
      (ForEachCell (some sh) r cvf s option).row.cells[j]? = some (some k.cell) := by
  intro j k hk
  obtain ⟨_, h2, h3⟩ := ForEachCell_default sh r cvf s option hskip hok hroom
  obtain ⟨g1, g2, _, _⟩ :=
    rangeCells_default (applyOptions option) hskip cvf hok r.cells 0 r s (by simp)
  have hcell : (filled 0 r.cells ++
      (List.range' r.cells.length (sh.MaxCol - (r.cells.length : Int)).toNat).map
        (fun (j : Nat) => newCell (j : Int)))[j]? = some k.cell := by
    rw [← h2, List.getElem?_map, hk]
    rfl
  have hjlt : j < r.cells.length + (sh.MaxCol - (r.cells.length : Int)).toNat := by
    have := lt_of_slot _ _ _ hk
    have hl := congrArg List.length h3
    simp at hl
    omega
  have hrvlen : (rangeCells (applyOptions option) cvf r.cells 0 r s).row.cells.length =
      r.cells.length := by
    rw [g1]; simp [filled_length]
  have hrow : (ForEachCell (some sh) r cvf s option).row =
      (padCells cvf (sh.MaxCol - (r.cells.length : Int)).toNat r.cells.length
        (rangeCells (applyOptions option) cvf r.cells 0 r s).row
        (rangeCells (applyOptions option) cvf r.cells 0 r s).state).row := by
    rw [ForEachCell_default_eq sh r cvf s option hskip, andThen_ok _ _ g2]
    simp only [hrvlen]
  rw [hrow]
  rcases Nat.lt_or_ge j r.cells.length with hj | hj
  · rw [List.getElem?_append_left (by rw [filled_length]; exact hj)] at hcell
    apply padCells_frame
    rw [g1]
    simp only [List.take_zero, List.nil_append, List.getElem?_map, hcell, Option.map_some']
  · rw [List.getElem?_append_right (by rw [filled_length]; exact hj), filled_length,
      List.getElem?_map, List.getElem?_range' _ _ (by omega)] at hcell
    simp only [Option.map_some', Option.some.injEq] at hcell
    have hcap : r.cellsCap ≤ r.cells.length + 1 := by
      rcases hroom with h | h
      · omega
      · exact h
    have := padCells_filled cvf hok (sh.MaxCol - (r.cells.length : Int)).toNat r.cells.length
      (rangeCells (applyOptions option) cvf r.cells 0 r s).row
      (rangeCells (applyOptions option) cvf r.cells 0 r s).state
      (by omega) (by rw [hrvlen, g1]; exact hcap) (by intro i h1 h2; omega) j hj hjlt
    rw [this, ← hcell]
    congr 3
    omega

/-- Without `SkipEmptyCells`, with padding to do and more than one spare slot of
capacity, `ForEachCell` panics. -/
theorem ForEachCell_default_panics {σ ε : Type} (sh : Sheet) (r : Row)
    (cvf : σ → Cell → σ × Option ε) (s : σ) (option : List CellVisitorOption)
    (hskip : (applyOptions option).skipEmptyCells = false)
    (hok : ∀ s c, (cvf s c).2 = none)
    (hm : (r.cells.length : Int) < sh.MaxCol) (hcap : r.cells.length + 1 < r.cellsCap) :
    (ForEachCell (some sh) r cvf s option).exit = Exit.panicked := by
  obtain ⟨g1, g2, _, _⟩ :=
    rangeCells_default (applyOptions option) hskip cvf hok r.cells 0 r s (by simp)
  have hrvlen : (rangeCells (applyOptions option) cvf r.cells 0 r s).row.cells.length =
      r.cells.length := by
    rw [g1]; simp [filled_length]
  rw [ForEachCell_default_eq sh r cvf s option hskip, andThen_ok _ _ g2]
  simp only [hrvlen]
  obtain ⟨n, hn⟩ : ∃ n, (sh.MaxCol - (r.cells.length : Int)).toNat = n + 1 :=
    ⟨(sh.MaxCol - (r.cells.length : Int)).toNat - 1, by omega⟩
  rw [hn]
  unfold padCells
  rw [GetCell_panic _ r.cells.length (by rw [hrvlen]) (by rw [g1]; exact hcap)]
  rfl

/-- A default traversal with a visitor that never fails returns nil only if there
is no padding to do or the slice has at most one spare slot. -/
theorem room_of_default_ok {σ ε : Type} (sh : Sheet) (r : Row)
    (cvf : σ → Cell → σ × Option ε) (s : σ) (option : List CellVisitorOption)
    (hskip : (applyOptions option).skipEmptyCells = false)
    (hok : ∀ s c, (cvf s c).2 = none)
    (h : (ForEachCell (some sh) r cvf s option).exit = Exit.ok) :
    sh.MaxCol ≤ (r.cells.length : Int) ∨ r.cellsCap ≤ r.cells.length + 1 := by
  by_cases hm : sh.MaxCol ≤ (r.cells.length : Int)
  · exact Or.inl hm
  · right
    by_cases hc : r.cellsCap ≤ r.cells.length + 1
    · exact hc
    · have := ForEachCell_default_panics sh r cvf s option hskip hok (by omega) (by omega)
      rw [this] at h
      cases h

/-! ## The claims on growth, outline levels, the CSV driver and repeated traversal -/

/-- C11: for every Row (a slice, so of length at most its capacity `c`) and every
`colIdx ≥ c`, `GetCell(colIdx)` completes with the new Cell of that column; the
backing storage then has length and capacity exactly `max(2 * c, colIdx + 1)`,
which is greater than `colIdx`; slot `colIdx` holds the new Cell and every other
slot at or beyond the old length is absent. -/
theorem GetCell_beyond_capacity (r : Row) (colIdx : Int) (hwf : r.WF)
    (hc : (r.cellsCap : Int) ≤ colIdx) :
    ∃ r1, GetCell r colIdx = some (newCell colIdx, r1) ∧
      (r1.cells.length : Int) = max (2 * (r.cellsCap : Int)) (colIdx + 1) ∧
      r1.cellsCap = r1.cells.length ∧
      colIdx < (r1.cells.length : Int) ∧
      r1.cells[colIdx.toNat]? = some (some (newCell colIdx)) ∧
      ∀ (j : Nat), r.cells.length ≤ j → j < r1.cells.length → (j : Int) ≠ colIdx →
        r1.cells[j]? = some none := by
  have hwf1 : r.cells.length ≤ r.cellsCap := hwf
  obtain ⟨n, rfl⟩ := Int.eq_ofNat_of_zero_le (show (0 : Int) ≤ colIdx by omega)
  have hlen : (makeCopy (max (2 * r.cellsCap) (n + 1)) r.cells).length =
      max (2 * r.cellsCap) (n + 1) := makeCopy_length _ _ (by omega)
  refine ⟨_, GetCell_grow r n (by omega) (by omega), ?_, ?_, ?_, ?_, ?_⟩
  · simp only [List.length_set, hlen]
    omega
  · simp only [List.length_set, hlen]
  · simp only [List.length_set, hlen]
    omega
  · have : n < (makeCopy (max (2 * r.cellsCap) (n + 1)) r.cells).length := by
      rw [hlen]; omega
    simp [List.getElem?_set, this]
  · intro j hj hjl hne
    simp only [List.length_set, hlen] at hjl
    have hne2 : n ≠ j := by omega
    simp only [List.getElem?_set, hne2, if_false]
    rw [makeCopy_eq _ _ (by omega), List.getElem?_append_right hj]
    exact List.getElem?_replicate_of_lt (by omega)

/-- C11 at the Row of three appended cells (length 3, capacity 4) and column 9: the
slice gets length and capacity 10. -/
theorem GetCell_beyond_capacity_witness :
    ∃ r1, GetCell abcRow 9 = some (newCell 9, r1) ∧
      (r1.cells.length : Int) = max (2 * (abcRow.cellsCap : Int)) (9 + 1) ∧
      r1.cellsCap = r1.cells.length ∧
      (9 : Int) < (r1.cells.length : Int) ∧
      r1.cells[(9 : Int).toNat]? = some (some (newCell 9)) ∧
      ∀ (j : Nat), abcRow.cells.length ≤ j → j < r1.cells.length → (j : Int) ≠ 9 →
        r1.cells[j]? = some none :=
  GetCell_beyond_capacity abcRow 9 (by decide) (by decide)

/-- C12: `SetOutlineLevel(l)` on a Row of a Sheet sets the Row's outline level to `l`
and the sheet-wide maximum to the larger of its previous value and `l`, and
changes nothing else; over any run of such calls on Rows of the Sheet the
sheet-wide maximum does not decrease. -/
theorem SetOutlineLevel_ratchet (sh : Sheet) (r : Row) (l : Nat) (rows : List Row)
    (calls : List (Nat × Nat)) :
    SetOutlineLevel (some sh) r l =
      ({ r with outlineLevel := l },
        some { sh with OutlineLevelRow := max sh.OutlineLevelRow l }) ∧
    sh.OutlineLevelRow ≤ (setOutlineLevels sh rows calls).1.OutlineLevelRow := by
  have hone : ∀ (sh : Sheet) (r : Row) (l : Nat), SetOutlineLevel (some sh) r l =
      ({ r with outlineLevel := l },
        some { sh with OutlineLevelRow := max sh.OutlineLevelRow l }) := by
    intro sh r l
    unfold SetOutlineLevel
    simp only
    split
    · rename_i h
      rw [Nat.max_eq_right (Nat.le_of_lt h)]
    · rename_i h
      rw [Nat.max_eq_left (Nat.le_of_not_lt h)]
  refine ⟨hone sh r l, ?_⟩
  induction calls generalizing sh rows with
  | nil => simp [setOutlineLevels]
  | cons a rest ih =>
    obtain ⟨i, l1⟩ := a
    unfold setOutlineLevels
    cases hr : rows[i]? with
    | none => simpa using ih sh rows
    | some r1 =>
      simp only [hone]
      have := ih { sh with OutlineLevelRow := max sh.OutlineLevelRow l1 }
        (rows.set i { r1 with outlineLevel := l1 })
      simp only [Option.getD_some]
      have hle : sh.OutlineLevelRow ≤ max sh.OutlineLevelRow l1 := Nat.le_max_left _ _
      exact Nat.le_trans hle this

/-- C12 on a Sheet with two Rows: level 3 on the first and then level 1 on the
second leave the sheet-wide maximum at 3 and the Rows at levels 3 and 1. -/
theorem SetOutlineLevel_ratchet_witness :
    (setOutlineLevels ⟨0, 0⟩ [emptyRow, emptyRow] [(0, 3), (1, 1)]).1.OutlineLevelRow = 3 ∧
    (setOutlineLevels ⟨0, 0⟩ [emptyRow, emptyRow] [(0, 3), (1, 1)]).2.map
      (fun r => r.outlineLevel) = [3, 1] ∧
    (SetOutlineLevel (some ⟨0, 3⟩) emptyRow 1 =
      ({ emptyRow with outlineLevel := 1 },
        some { (⟨0, 3⟩ : Sheet) with OutlineLevelRow := max 3 1 }) ∧
    (⟨0, 3⟩ : Sheet).OutlineLevelRow ≤
      (setOutlineLevels ⟨0, 3⟩ [emptyRow] [(0, 1)]).1.OutlineLevelRow) :=
  ⟨by decide, by decide, SetOutlineLevel_ratchet ⟨0, 3⟩ emptyRow 1 [emptyRow] [(0, 1)]⟩

/-- C13, evaluated where it fails: with three Rows of one cell each and row limit 1
the callback walks and writes two Rows, the first and the second; with row limit
2 it walks and writes all three; with row limit 0 it walks and writes all three. -/
theorem rowLimit_lets_one_more_row :
    (ForEachRow rawValue (some ⟨1, 0⟩) 1 false extractStart
        [some (oneCell "a"), some (oneCell "b"), some (oneCell "c")]).1 =
      { walked := 2, vals := ["b"], written := [["a"], ["b"]] } ∧
    (ForEachRow rawValue (some ⟨1, 0⟩) 1 false extractStart
        [some (oneCell "a"), some (oneCell "b"), some (oneCell "c")]).2.2 = Exit.ok ∧
    (ForEachRow rawValue (some ⟨1, 0⟩) 2 false extractStart
        [some (oneCell "a"), some (oneCell "b"), some (oneCell "c")]).1 =
      { walked := 3, vals := ["c"], written := [["a"], ["b"], ["c"]] } ∧
    (ForEachRow rawValue (some ⟨1, 0⟩) 0 false extractStart
        [some (oneCell "a"), some (oneCell "b"), some (oneCell "c")]).1 =
      { walked := 3, vals := ["c"], written := [["a"], ["b"], ["c"]] } := by
  decide

/-- C14, evaluated where it fails and where it holds: with two sheets, index -1
passes both cases of the `switch` and the index expression panics; index 2 gives
the error that names the range 0 to 1, index 1 selects the second sheet, and a
workbook without sheets gives the other error. -/
theorem selectSheet_negative_index :
    selectSheet ["first", "second"] (-1) = Selection.indexPanic ∧
    selectSheet ["first", "second"] 2 = Selection.noSuchSheet 2 1 ∧
    selectSheet ["first", "second"] 1 = Selection.selected "second" ∧
    selectSheet ([] : List String) 0 = Selection.noSheets ∧
    selectSheet ([] : List String) (-1) = Selection.noSheets := by
  decide

/-- C15: for every Row, every Sheet or none and every visitor, `ForEachCell` with
`SkipEmptyCells` does not panic and leaves the Row as it was: the same backing
sequence, the same capacity and the same `GetCellCount()`. -/
theorem ForEachCell_SkipEmptyCells_keeps_row {σ ε : Type} (sheet : Option Sheet) (r : Row)
    (cvf : σ → Cell → σ × Option ε) (s : σ) :
    (ForEachCell sheet r cvf s [SkipEmptyCells]).exit ≠ Exit.panicked ∧
    (ForEachCell sheet r cvf s [SkipEmptyCells]).row = r ∧
    (ForEachCell sheet r cvf s [SkipEmptyCells]).row.cells = r.cells ∧
    (ForEachCell sheet r cvf s [SkipEmptyCells]).row.cellsCap = r.cellsCap ∧
    GetCellCount (ForEachCell sheet r cvf s [SkipEmptyCells]).row = GetCellCount r := by
  obtain ⟨h1, h2⟩ := ForEachCell_skip_row sheet r cvf s [SkipEmptyCells] rfl
  refine ⟨h2, h1, ?_, ?_, ?_⟩ <;> rw [h1]

/-- C16 as stated fails.  In compact mode the Row left by `GetCell(0)` with the value
x holds one materialized cell and is walked, yet no record is written, since its
cell count is 0.  Without compact mode a Row whose cell fails to format is walked
and no record is written: the callback returns the error. -/
theorem rowCallback_omits_wrong_rows :
    (materialized gotCellRow = 1 ∧
      (rowCallback rawValue (some ⟨1, 0⟩) 0 true extractStart (some gotCellRow)).extract =
        { walked := 1, vals := [], written := [] }) ∧
    ((rowCallback badFormat (some ⟨1, 0⟩) 0 false extractStart (some (oneCell "a"))).extract =
        { walked := 1, vals := [], written := [] } ∧
      (rowCallback badFormat (some ⟨1, 0⟩) 0 false extractStart (some (oneCell "a"))).exit =
        Exit.error "bad format") := by
  decide

/-- C16, amended: for a Row that the callback walks, whose `GetCellCount()` is its
number of materialized cells and on which the cell traversal, when it runs,
returns nil: in compact mode no record is written if and only if the Row holds no
materialized cell, and one record is written otherwise; without compact mode one
record is written. -/
theorem rowCallback_records (format : Cell → Except String String) (sheet : Option Sheet)
    (rowLimit : Int) (compact : Bool) (st : Extract) (r : Row)
    (hgate : ¬ (rowLimit > 0 ∧ st.walked > rowLimit))
    (hcount : GetCellCount r = (materialized r : Int))
    (htrav : compact = false ∨ materialized r ≠ 0 →
      (ForEachCell sheet r (cellCallback format) [] []).exit = Exit.ok) :
    (rowCallback format sheet rowLimit compact st (some r)).extract.walked = st.walked + 1 ∧
    (compact = true →
      (((rowCallback format sheet rowLimit compact st (some r)).extract.written = st.written ↔
          materialized r = 0) ∧
        (materialized r ≠ 0 → ∃ record,
          (rowCallback format sheet rowLimit compact st (some r)).extract.written =
            st.written ++ [record]))) ∧
    (compact = false → ∃ record,
      (rowCallback format sheet rowLimit compact st (some r)).extract.written =
        st.written ++ [record]) := by
  have hrun : compact = false ∨ materialized r ≠ 0 →
      (rowCallback format sheet rowLimit compact st (some r)).extract.walked = st.walked + 1 ∧
      (rowCallback format sheet rowLimit compact st (some r)).extract.written =
        st.written ++ [(ForEachCell sheet r (cellCallback format) [] []).state] := by
    intro h
    have hcond : GetCellCount r > 0 ∨ compact = false := by
      rcases h with h | h
      · exact Or.inr h
      · left; rw [hcount]; omega
    unfold rowCallback
    simp only [hgate, if_false, hcond, if_true, htrav h]
    exact ⟨trivial, trivial⟩
  have hskip : compact = true → materialized r = 0 →
      (rowCallback format sheet rowLimit compact st (some r)).extract.walked = st.walked + 1 ∧
      (rowCallback format sheet rowLimit compact st (some r)).extract.written = st.written := by
    intro hc hm
    have hcond : ¬ (GetCellCount r > 0 ∨ compact = false) := by
      rw [hcount, hm, hc]; simp
    unfold rowCallback
    simp only [hgate, if_false, hcond]
    exact ⟨trivial, trivial⟩
  refine ⟨?_, ?_, ?_⟩
  · by_cases h : compact = false ∨ materialized r ≠ 0
    · exact (hrun h).1
    · have hc : compact = true := by
        cases compact
        · exact absurd (Or.inl rfl) h
        · rfl
      exact (hskip hc (by omega)).1
  · intro hc
    refine ⟨⟨?_, fun hm => (hskip hc hm).2⟩, fun hm => ⟨_, (hrun (Or.inr hm)).2⟩⟩
    intro hw
    by_contra hm
    rw [(hrun (Or.inr hm)).2] at hw
    have := congrArg List.length hw
    simp at this
  · intro hc
    exact ⟨_, (hrun (Or.inl hc)).2⟩

/-- C16, amended, at a Row of one appended cell a in compact mode with `MaxCol = 1`:
the Row is walked and the record a is written. -/
theorem rowCallback_records_witness :
    (rowCallback rawValue (some ⟨1, 0⟩) 0 true extractStart (some (oneCell "a"))).extract.walked =
      extractStart.walked + 1 ∧
    (true = true →
      (((rowCallback rawValue (some ⟨1, 0⟩) 0 true extractStart
            (some (oneCell "a"))).extract.written = extractStart.written ↔
          materialized (oneCell "a") = 0) ∧
        (materialized (oneCell "a") ≠ 0 → ∃ record,
          (rowCallback rawValue (some ⟨1, 0⟩) 0 true extractStart
            (some (oneCell "a"))).extract.written = extractStart.written ++ [record]))) ∧
    (true = false → ∃ record,
      (rowCallback rawValue (some ⟨1, 0⟩) 0 true extractStart
        (some (oneCell "a"))).extract.written = extractStart.written ++ [record]) :=
  rowCallback_records rawValue (some ⟨1, 0⟩) 0 true extractStart (oneCell "a")
    (by decide) (by decide) (fun _ => by decide)

/-- C17: for every Row with backing length `L` and capacity `c` and every Sheet with
`MaxCol = m` such that `m ≤ L` or `c ≤ L + 1`, `ForEachCell` with no options and a
visitor that never fails returns nil after exactly `max(L, m)` invocations, the
`i`-th on position `i`: on the Cell of slot `i` where the Row holds one, and on a
Cell of column index `i` for `i ≥ L`.  Afterwards slot `i` holds the `i`-th Cell
visited, so no slot below `max(L, m)` is absent. -/
theorem ForEachCell_default_visits {σ ε : Type} (r : Row) (sh : Sheet)
    (cvf : σ → Cell → σ × Option ε) (s : σ) (hok : ∀ s c, (cvf s c).2 = none)
    (hroom : sh.MaxCol ≤ (r.cells.length : Int) ∨ r.cellsCap ≤ r.cells.length + 1) :
    (ForEachCell (some sh) r cvf s []).exit = Exit.ok ∧
    ((ForEachCell (some sh) r cvf s []).calls.length : Int) =
      max (r.cells.length : Int) sh.MaxCol ∧
    (∀ (i : Nat) (k : Call ε), (ForEachCell (some sh) r cvf s []).calls[i]? = some k →
      k.ci = i ∧
      (∀ c, r.cells[i]? = some (some c) → k.cell = c) ∧
      (r.cells.length ≤ i → k.cell.num = (i : Int)) ∧
      (ForEachCell (some sh) r cvf s []).row.cells[i]? = some (some k.cell)) ∧
    (∀ (i : Nat), (i : Int) < max (r.cells.length : Int) sh.MaxCol →
      ∃ c, (ForEachCell (some sh) r cvf s []).row.cells[i]? = some (some c)) := by
  obtain ⟨h1, h2, h3⟩ := ForEachCell_default sh r cvf s [] rfl hok hroom
  have hrow := ForEachCell_default_row sh r cvf s [] rfl hok hroom
  generalize ForEachCell (some sh) r cvf s [] = v at h1 h2 h3 hrow
  generalize hn : (sh.MaxCol - (r.cells.length : Int)).toNat = n at h2 h3
  have hlen : v.calls.length = r.cells.length + n := by
    have := congrArg List.length h3
    simpa using this
  have hcell : ∀ (i : Nat) (k : Call ε), v.calls[i]? = some k →
      (filled 0 r.cells ++ (List.range' r.cells.length n).map
        (fun (j : Nat) => newCell (j : Int)))[i]? = some k.cell := by
    intro i k hk
    rw [← h2, List.getElem?_map, hk]
    rfl
  refine ⟨h1, by rw [hlen]; omega, ?_, ?_⟩
  · intro i k hk
    have hi : i < r.cells.length + n := by
      rw [← hlen]; exact lt_of_slot _ _ _ hk
    have hc := hcell i k hk
    refine ⟨?_, ?_, ?_, hrow i k hk⟩
    · have : (v.calls.map (fun k => k.ci))[i]? = some k.ci := by
        rw [List.getElem?_map, hk]; rfl
      rw [h3, List.getElem?_range' _ _ hi] at this
      simp at this
      omega
    · intro c hs
      have hil := lt_of_slot _ _ _ hs
      rw [List.getElem?_append_left (by rw [filled_length]; exact hil), filled_getElem?,
        hs] at hc
      simpa using hc.symm
    · intro hil
      rw [List.getElem?_append_right (by rw [filled_length]; exact hil), filled_length,
        List.getElem?_map, List.getElem?_range' _ _ (by omega)] at hc
      simp only [Option.map_some', Option.some.injEq] at hc
      rw [← hc]
      simp only [newCell]
      omega
  · intro i hi
    have hi2 : i < v.calls.length := by omega
    exact ⟨_, hrow i _ (List.getElem?_eq_getElem hi2)⟩

/-- C17 at the Row with cells in slots 0 and 2, slot 1 absent (length 3, capacity 3)
and `MaxCol = 5`: five invocations, on positions 0 to 4. -/
theorem ForEachCell_default_visits_witness :
    ((ForEachCell (some ⟨5, 0⟩) sparseRow okVisitor () []).exit = Exit.ok ∧
    ((ForEachCell (some ⟨5, 0⟩) sparseRow okVisitor () []).calls.length : Int) =
      max (sparseRow.cells.length : Int) (⟨5, 0⟩ : Sheet).MaxCol ∧
    (∀ (i : Nat) (k : Call String),
      (ForEachCell (some ⟨5, 0⟩) sparseRow okVisitor () []).calls[i]? = some k →
      k.ci = i ∧
      (∀ c, sparseRow.cells[i]? = some (some c) → k.cell = c) ∧
      (sparseRow.cells.length ≤ i → k.cell.num = (i : Int)) ∧
      (ForEachCell (some ⟨5, 0⟩) sparseRow okVisitor () []).row.cells[i]? =
        some (some k.cell)) ∧
    (∀ (i : Nat), (i : Int) < max (sparseRow.cells.length : Int) (⟨5, 0⟩ : Sheet).MaxCol →
      ∃ c, (ForEachCell (some ⟨5, 0⟩) sparseRow okVisitor () []).row.cells[i]? =
        some (some c))) ∧
    (ForEachCell (some ⟨5, 0⟩) sparseRow okVisitor () []).calls.map
      (fun k => (k.ci, k.cell.Value)) = [(0, "x"), (1, ""), (2, "z"), (3, ""), (4, "")] :=
  ⟨ForEachCell_default_visits sparseRow ⟨5, 0⟩ okVisitor () (fun _ _ => rfl)
    (Or.inr (by decide)), by decide⟩

/-- C18 as stated fails: on the Row of three appended cells a, b, c with `MaxCol = 5`
the first default traversal returns nil after five invocations and leaves a slice
of length 8; the second returns nil after eight invocations. -/
theorem ForEachCell_default_second_run_longer :
    (ForEachCell (some ⟨5, 0⟩) abcRow okVisitor () []).exit = Exit.ok ∧
    (ForEachCell (some ⟨5, 0⟩) abcRow okVisitor () []).calls.length = 5 ∧
    abcPadded.cells.length = 8 ∧
    (ForEachCell (some ⟨5, 0⟩) abcPadded okVisitor () []).exit = Exit.ok ∧
    (ForEachCell (some ⟨5, 0⟩) abcPadded okVisitor () []).calls.length = 8 := by
  decide

/-- C18, amended: when a default `ForEachCell` with a visitor that never fails
returns nil and leaves the backing length equal to the number of cells it
visited, a second default `ForEachCell` on the Row it left returns nil, invokes the
visitor the same number of times, on the same cells, and so yields the same
sequence of cell values. -/
theorem ForEachCell_default_repeat {σ ε : Type} (r : Row) (sh : Sheet)
    (cvf : σ → Cell → σ × Option ε) (s s2 : σ) (hok : ∀ s c, (cvf s c).2 = none)
    (hdone : (ForEachCell (some sh) r cvf s []).exit = Exit.ok)
    (hlen : (ForEachCell (some sh) r cvf s []).row.cells.length =
      (ForEachCell (some sh) r cvf s []).calls.length) :
    (ForEachCell (some sh) (ForEachCell (some sh) r cvf s []).row cvf s2 []).exit = Exit.ok ∧
    (ForEachCell (some sh) (ForEachCell (some sh) r cvf s []).row cvf s2 []).calls.length =
      (ForEachCell (some sh) r cvf s []).calls.length ∧
    (ForEachCell (some sh) (ForEachCell (some sh) r cvf s []).row cvf s2 []).calls.map
        (fun k => k.cell) =
      (ForEachCell (some sh) r cvf s []).calls.map (fun k => k.cell) ∧
    (ForEachCell (some sh) (ForEachCell (some sh) r cvf s []).row cvf s2 []).calls.map
        (fun k => k.cell.Value) =
      (ForEachCell (some sh) r cvf s []).calls.map (fun k => k.cell.Value) := by
  have hroom := room_of_default_ok sh r cvf s [] rfl hok hdone
  obtain ⟨_, _, h3⟩ := ForEachCell_default sh r cvf s [] rfl hok hroom
  have hrow := ForEachCell_default_row sh r cvf s [] rfl hok hroom
  generalize ForEachCell (some sh) r cvf s [] = v at hlen h3 hrow
  have hcalls : v.calls.length =
      r.cells.length + (sh.MaxCol - (r.cells.length : Int)).toNat := by
    have := congrArg List.length h3
    simpa using this
  have hcells : v.row.cells = (v.calls.map (fun k => k.cell)).map some := by
    apply List.ext_getElem?
    intro j
    rcases Nat.lt_or_ge j v.calls.length with hj | hj
    · rw [hrow j _ (List.getElem?_eq_getElem hj)]
      simp [List.getElem?_eq_getElem hj]
    · rw [List.getElem?_eq_none (by omega), List.getElem?_eq_none (by simp; omega)]
  have hm : sh.MaxCol ≤ (v.row.cells.length : Int) := by omega
  obtain ⟨g1, g2, _⟩ := ForEachCell_default sh v.row cvf s2 [] rfl hok (Or.inl hm)
  have hzero : (sh.MaxCol - (v.row.cells.length : Int)).toNat = 0 := by omega
  rw [hzero, hcells, filled_map_some] at g2
  simp only [List.range'_zero, List.map_nil, List.append_nil] at g2
  refine ⟨g1, ?_, g2, ?_⟩
  · have := congrArg List.length g2
    simpa using this
  · have := congrArg (List.map (fun (c : Cell) => c.Value)) g2
    simpa using this

/-- C18, amended, at a Row of one appended cell a (length 1, capacity 1) with
`MaxCol = 2`: the first traversal pads one column and leaves length 2, and both
traversals yield a and the empty string. -/
theorem ForEachCell_default_repeat_witness :
    ((ForEachCell (some ⟨2, 0⟩) (ForEachCell (some ⟨2, 0⟩) (oneCell "a") okVisitor ()
        []).row okVisitor () []).exit = Exit.ok ∧
    (ForEachCell (some ⟨2, 0⟩) (ForEachCell (some ⟨2, 0⟩) (oneCell "a") okVisitor ()
        []).row okVisitor () []).calls.length =
      (ForEachCell (some ⟨2, 0⟩) (oneCell "a") okVisitor () []).calls.length ∧
    (ForEachCell (some ⟨2, 0⟩) (ForEachCell (some ⟨2, 0⟩) (oneCell "a") okVisitor ()
        []).row okVisitor () []).calls.map (fun k => k.cell) =
      (ForEachCell (some ⟨2, 0⟩) (oneCell "a") okVisitor () []).calls.map (fun k => k.cell) ∧
    (ForEachCell (some ⟨2, 0⟩) (ForEachCell (some ⟨2, 0⟩) (oneCell "a") okVisitor ()
        []).row okVisitor () []).calls.map (fun k => k.cell.Value) =
      (ForEachCell (some ⟨2, 0⟩) (oneCell "a") okVisitor () []).calls.map
        (fun k => k.cell.Value)) ∧
    (ForEachCell (some ⟨2, 0⟩) (oneCell "a") okVisitor () []).calls.map
      (fun k => k.cell.Value) = ["a", ""] :=
  ⟨ForEachCell_default_repeat (oneCell "a") ⟨2, 0⟩ okVisitor () () (fun _ _ => rfl)
    (by decide) (by decide), by decide⟩

end Xlsx
